import Mathlib

/-!
Verification development for the elemental-conlang lexicon synthesis engine.

The Python sources are shallowly embedded:
* words, keys and category names are `List Char` (`Str`);
* dictionaries that are iterated become insertion-ordered association lists,
  dictionaries used only through key lookup keep first-match semantics
  (Python dictionaries have unique keys, so this coincides);
* the seeded pseudo-random source (`random` module) is abstracted by an
  explicit stream `g : Nat → Nat` together with a running position: every
  primitive request for randomness (a `choice`, one Fisher-Yates step of a
  `shuffle`, a `randint`, a `sample` pick, a coin for `random()`)
  consumes one stream value at the current position.  Two runs that start
  from the same seeded state read the same stream from the same position;
* code paths that raise an uncaught exception (KeyError / IndexError)
  are modelled by `Option`, `none` being the propagated crash.
-/

/-- Words, keys and category names, as lists of characters. -/
abbrev Str := List Char

/-- Abstraction of the seeded pseudo-random source. -/
abbrev RandFn := Nat → Nat

/-- Convert a string literal to `Str`. -/
def str (s : String) : Str := s.toList

/-- `random.choice(l)`: pick the element indexed by the draw modulo the
length; `none` models the exception Python raises on an empty sequence. -/
def pyChoice (l : List α) (n : Nat) : Option α := l.get? (n % l.length)

/-- `random.randint(a, b)` (both ends inclusive). -/
def pyRandint (a b : Nat) (g : RandFn) (i : Nat) : Nat × Nat :=
  (a + g i % (b + 1 - a), i + 1)

/-- Swap two positions of a list (helper for the Fisher-Yates shuffle). -/
def listSwap (l : List α) (a b : Nat) : List α :=
  match l.get? a, l.get? b with
  | some x, some y => (l.set a y).set b x
  | _, _ => l

/-- One pass of `random.shuffle`: positions `k, k-1, ..., 1`, each swapped
with a drawn position `≤ k`. -/
def pyShuffleGo (g : RandFn) : List α → Nat → Nat → List α × Nat
  | l, 0, i => (l, i)
  | l, k + 1, i => pyShuffleGo g (listSwap l (k + 1) (g i % (k + 2))) k (i + 1)

/-- `random.shuffle(l)` on a copy of `l`. -/
def pyShuffle (l : List α) (g : RandFn) (i : Nat) : List α × Nat :=
  pyShuffleGo g l (l.length - 1) i

/-- `random.sample(l, k)`: `k` distinct picks, one draw per pick. -/
def pySample (l : List α) (k : Nat) (g : RandFn) (i : Nat) : List α × Nat :=
  match k with
  | 0 => ([], i)
  | k + 1 =>
    if l.isEmpty then ([], i)
    else
      let j := g i % l.length
      match l.get? j with
      | none => ([], i)
      | some x =>
        let r := pySample (l.eraseIdx j) k g (i + 1)
        (x :: r.1, r.2)

/-- Keep the first occurrence of every element, preserving order. -/
def dedupFirstAux [DecidableEq α] (seen : List α) : List α → List α
  | [] => []
  | x :: xs =>
    if x ∈ seen then dedupFirstAux seen xs
    else x :: dedupFirstAux (x :: seen) xs

/-- Order-preserving deduplication (models iterating a Python `set` built
by successive insertion, fixing insertion order as the canonical order). -/
def dedupFirst [DecidableEq α] (l : List α) : List α := dedupFirstAux [] l

/-- Insert into a descending-sorted list after all entries with a key
`≥` the new key (this is what makes the sort stable). -/
def insertDescBy (val : α → Int) (x : α) : List α → List α
  | [] => [x]
  | y :: ys => if val x ≤ val y then y :: insertDescBy val x ys else x :: y :: ys

/-- Stable descending sort, Python's `sorted(..., reverse=True)`. -/
def sortDescBy (val : α → Int) (l : List α) : List α :=
  l.foldl (fun acc x => insertDescBy val x acc) []

/-- Add an element to a set modelled as a duplicate-free list. -/
def setAdd [DecidableEq α] (l : List α) (x : α) : List α :=
  if x ∈ l then l else l ++ [x]

/-- `d[k] = v` on an insertion-ordered dictionary: update in place if the
key exists, otherwise append. -/
def assocSet [DecidableEq κ] (l : List (κ × β)) (k : κ) (v : β) : List (κ × β) :=
  match l with
  | [] => [(k, v)]
  | (k', v') :: rest =>
    if k' = k then (k', v) :: rest else (k', v') :: assocSet rest k v

/-- `d.setdefault(k, dflt)` followed by an in-place modification `f`. -/
def assocUpdate [DecidableEq κ] (l : List (κ × β)) (k : κ) (f : β → β) (dflt : β)
    : List (κ × β) :=
  match l with
  | [] => [(k, f dflt)]
  | (k', v') :: rest =>
    if k' = k then (k', f v') :: rest else (k', v') :: assocUpdate rest k f dflt

/-- Split a character list at every occurrence of `c` (Python
`s.split(c)` for a single-character separator). -/
def splitOnChar (c : Char) : Str → List Str
  | [] => [[]]
  | x :: xs =>
    let r := splitOnChar c xs
    if x = c then [] :: r
    else
      match r with
      | [] => [[x]]
      | h :: t => (x :: h) :: t

/-- `key.split('.')[0]`. -/
def stemOf (k : Str) : Str := (splitOnChar '.' k).headD []

/-- `".".join`-style concatenation with a connector between parts. -/
def joinWith (conn : Str) : List Str → Str
  | [] => []
  | [p] => p
  | p :: rest => p ++ conn ++ joinWith conn rest

-- ## Phonological configuration of `logo_gene.py` (section 1 of the file).
-- Note: in the source, `coda['earth']` is the Python list
-- `['rb','rc','rf','rg','rm','rn','rp,' 'rs' 'rst']` whose last three string
-- literals are adjacent and therefore concatenate to the single element
-- `'rp,rsrst'`; the embedding reproduces that.

/-- `onset_phones` of `logo_gene.py`. -/
def onsetPhonesTable : List (Str × List Str) :=
  [ (str ("n"),
      [str ("d"), str ("z"), str ("n"), str ("l"), str ("r"),
       str ("dr"), str ("dw"),
       str ("gr"), str ("gl"), str ("gn"), str ("gw"),
       str ("k"), str ("kr"), str ("kl"), str ("kw"),
       str ("br"), str ("bl"), str ("bn"),
       str ("wr")]),
    (str ("v"),
      [str ("t"), str ("p"), str ("k"),
       str ("tr"), str ("tw"),
       str ("pr"), str ("pl"),
       str ("sk"), str ("sp"), str ("st"),
       str ("skr"), str ("spr"), str ("str")]),
    (str ("a"),
      [str ("f"), str ("s"), str ("h"), str ("ᚦ"),
       str ("fl"), str ("fr"), str ("hl"),
       str ("br"), str ("bl"), str ("ᚦr"), str ("ᚦw")]),
    (str ("e"), [str ("f"), str ("h"), str ("hw"), str ("ᚦ")]),
    (str ("r"), [str ("j"), str ("w"), str ("m")]),
    (str ("s"), [str ("f"), str ("j"), str ("z"), str ("ᚦ")]),
    (str ("k"), [str ("g"), str ("k"), str ("kw")]),
    (str ("i"), [str ("b"), str ("f"), str ("m")]),
    (str ("d"), [str ("th"), str ("d"), str ("dh")]),
    (str ("o"), [str ("h"), str ("w")]) ]

/-- `nucleus_vowels` of `logo_gene.py`. -/
def nucleusVowelsTable : List (Str × List Str) :=
  [ (str ("fire"),
      [str ("a"), str ("ay"), str ("ah"), str ("oa"), str ("ya"), str ("ia"), str ("ua")]),
    (str ("air"),
      [str ("e"), str ("eo"), str ("ei"), str ("ae"), str ("ee"), str ("ey")]),
    (str ("earth"),
      [str ("i"), str ("ia"), str ("iu"), str ("io"), str ("iy")]),
    (str ("water"),
      [str ("u"), str ("ui"), str ("uu"), str ("ua"), str ("ue")]) ]

/-- `nucleus_modifiers` of `logo_gene.py`. -/
def nucleusModifiersTable : List (Str × List Str) :=
  [ (str ("n"), [str ("w"), str ("u"), str ("r"), str ("l")]),
    (str ("v"), [str ("j"), str ("i"), str ("n")]),
    (str ("a"), [str ("h"), str ("w")]),
    (str ("e"), [str ("h")]),
    (str ("r"), [str ("l"), str ("r"), str ("s")]),
    (str ("s"), [str ("z")]),
    (str ("k"), [str ("n"), str ("ng")]),
    (str ("i"), [str ("w")]),
    (str ("d"), [str ("j")]),
    (str ("o"), [str ("h")]) ]

/-- `coda` of `logo_gene.py` (see the note above on the `earth` row). -/
def codaTable : List (Str × List Str) :=
  [ (str ("earth"),
      [str ("rb"), str ("rc"), str ("rf"), str ("rg"), str ("rm"), str ("rn"),
       str ("rp,rsrst")]),
    (str ("air"),
      [str ("ft"), str ("ht"), str ("lt"), str ("nt"), str ("rt"), str ("st")]),
    (str ("fire"),
      [str ("ks"), str ("k"), str ("z"), str ("sk"), str ("st")]),
    (str ("water"),
      [str ("m"), str ("l"), str ("n"), str ("ng"), str ("rm"), str ("rn")]) ]

/-- A composition vector: the `composition` mapping of a sense, kept as an
insertion-ordered association list (a missing mapping is the empty list,
exactly as `data.get('composition', {})` yields `{}`). -/
abbrev CompVec := List (Str × Int)

/-- `vec.get(k, 0)`. -/
def compGet (c : CompVec) (k : Str) : Int := (List.lookup k c).getD 0

/-- A composition signature: `(fire, water, air, earth)` values. -/
abbrev Sig := Int × Int × Int × Int

/-- `composition_signature` of `logo_gene.py`. -/
def compositionSignature (c : CompVec) : Sig :=
  (compGet c (str ("fire")), compGet c (str ("water")),
   compGet c (str ("air")), compGet c (str ("earth")))

/-- Squared Euclidean distance over the four categories, the quantity whose
square root `vectors_match` compares with the threshold. -/
def distSq (v1 v2 : CompVec) : Int :=
  let d (k : Str) : Int := compGet v1 k - compGet v2 k
  (d (str ("fire")))^2 + (d (str ("water")))^2 + (d (str ("air")))^2 + (d (str ("earth")))^2

/-- `vectors_match` of `logo_gene.py` at the default threshold 15.0:
`sqrt(dist) < 15.0` is equivalent to `dist < 225` on these integer-valued
vectors (225 is an exact square, so no floating-point boundary issue). -/
def vectorsMatch (v1 v2 : CompVec) : Bool := distSq v1 v2 < 225

/-- `sorted(vector.items(), key=itemgetter(1), reverse=True)` — stable
descending sort by intensity. -/
def sortedElementsDesc (c : CompVec) : CompVec := sortDescBy (fun p => p.2) c

/-- `construct_word` of `logo_gene.py`.  `none` models the uncaught
IndexError on an empty composition (`sorted_elements[0]`) and the
KeyError on an unknown part-of-speech or category. -/
def constructWord (pos : Str) (vector : CompVec) (lookup : List Str)
    (g : RandFn) (i : Nat) : Option (Str × Nat) :=
  let se := sortedElementsDesc vector
  match se with
  | [] => none
  | (primary, _) :: tl =>
    let secondary :=
      match tl with
      | (s, v) :: _ => if 0 < v then s else primary
      | [] => primary
    match List.lookup pos onsetPhonesTable with
    | none => none
    | some onsets =>
      match pyChoice onsets (g i) with
      | none => none
      | some onset =>
        match List.lookup primary nucleusVowelsTable with
        | none => none
        | some vowels =>
          match pyChoice vowels (g (i + 1)) with
          | none => none
          | some vowel =>
            match List.lookup secondary codaTable with
            | none => none
            | some codas =>
              match pyChoice codas (g (i + 2)) with
              | none => none
              | some kd =>
                let test := onset ++ vowel ++ kd
                if test ∉ lookup then some (test, i + 3)
                else
                  match List.lookup pos nucleusModifiersTable with
                  | none => none
                  | some glides =>
                    match pyChoice glides (g (i + 3)) with
                    | none => none
                    | some glide =>
                      let test2 := onset ++ vowel ++ glide
                      if test2 ∉ lookup then some (test2, i + 4)
                      else
                        match pyChoice vowels (g (i + 4)) with
                        | none => none
                        | some vowel2 =>
                          some (onset ++ vowel ++ kd ++ vowel2 ++ glide, i + 5)

-- ## Homonym resolution machinery of `logo_gene.py` (section 4 of the file).

/-- `_build_phoneme_units()`: the union of every configured inventory.
Python iterates a `set`; the embedding fixes the order to insertion order
(first occurrence while walking the four tables in source order), which is
observationally irrelevant: the units are only consumed after a re-sort by
length, and two distinct same-length units can never match at the same
position of a word. -/
def logoPhonemeUnits : List Str :=
  dedupFirst
    ((onsetPhonesTable.map Prod.snd).flatten
      ++ (nucleusVowelsTable.map Prod.snd).flatten
      ++ (nucleusModifiersTable.map Prod.snd).flatten
      ++ (codaTable.map Prod.snd).flatten)

/-- Multi-character units sorted longest first
(`sorted([u for u in units if len(u) > 1], key=len, reverse=True)`). -/
def logoDigraphs : List Str :=
  sortDescBy (fun u => (u.length : Int)) (logoPhonemeUnits.filter (fun u => 1 < u.length))

/-- Longest-match tokenizer core; the fuel is the remaining word length
(every step consumes at least one character). -/
def tokenizeAux (digraphs : List Str) : Nat → Str → List Str
  | 0, _ => []
  | _, [] => []
  | fuel + 1, ch :: rest =>
    match digraphs.find? (fun dg => dg.isPrefixOf (ch :: rest)) with
    | some dg => dg :: tokenizeAux digraphs fuel ((ch :: rest).drop dg.length)
    | none => [ch] :: tokenizeAux digraphs fuel rest

/-- `tokenize_phonemes` of `logo_gene.py` with the default phoneme units. -/
def tokenizePhonemes (w : Str) : List Str := tokenizeAux logoDigraphs w.length w

/-- `_build_vowel_pool()`: all nucleus vowels, deduplicated, sorted longest
first (ties keep the fixed insertion order; see `logoPhonemeUnits` on the
modelling of Python set iteration). -/
def logoVowelPool : List Str :=
  sortDescBy (fun u => (u.length : Int)) (dedupFirst ((nucleusVowelsTable.map Prod.snd).flatten))

/-- The retry loop of `scramble_preserving_ends`: shuffle the interior
tokens, skip permutations already seen, accept the first join absent from
the registry. -/
def scrambleLoop (first last : Str) (middle : List Str) (lookup : List Str)
    (g : RandFn) : List (List Str) → Nat → Nat → Option Str × Nat
  | _, 0, i => (none, i)
  | seen, attempts + 1, i =>
    let r := pyShuffle middle g i
    let mid := r.1
    if mid ∈ seen then scrambleLoop first last middle lookup g seen attempts r.2
    else
      let cand := (first :: mid ++ [last]).flatten
      if cand ∈ lookup then scrambleLoop first last middle lookup g (mid :: seen) attempts r.2
      else (some cand, r.2)

/-- `scramble_preserving_ends` of `logo_gene.py`. -/
def scramblePreservingEnds (w : Str) (lookup : List Str) (attempts : Nat)
    (g : RandFn) (i : Nat) : Option Str × Nat :=
  let tokens := tokenizePhonemes w
  if tokens.length ≤ 2 then (none, i)
  else if tokens.length = 3 then
    let cand := tokens.flatten
    if cand ∈ lookup then (none, i) else (some cand, i)
  else
    match tokens with
    | [] => (none, i)
    | t0 :: rest =>
      let last := rest.getLast? |>.getD []
      let middle := rest.dropLast
      if middle.length ≤ 1 then (none, i)
      else scrambleLoop t0 last middle lookup g [] attempts i

/-- The per-index body of `swap_vowels_preserving_ends`: replace the token
at `idx` by a drawn vowel different from the current one (skipping the
index when no alternative exists). -/
def swapAtIdx (g : RandFn) (acc : List Str × Nat) (idx : Nat) : List Str × Nat :=
  let toks := acc.1
  let i := acc.2
  let current := (toks.get? idx).getD []
  let options := logoVowelPool.filter (fun v => v ≠ current)
  if options.isEmpty then (toks, i)
  else
    match pyChoice options (g i) with
    | none => (toks, i + 1)
    | some v => (toks.set idx v, i + 1)

/-- The retry loop of `swap_vowels_preserving_ends`. -/
def swapLoop (tokens : List Str) (eligible : List Nat) (lookup : List Str)
    (g : RandFn) : Nat → Nat → Option Str × Nat
  | 0, i => (none, i)
  | attempts + 1, i =>
    let cnt :=
      if 1 < eligible.length then pyRandint 1 (min 2 eligible.length) g i
      else (1, i)
    let picked := pySample eligible cnt.1 g cnt.2
    let swapped := picked.1.foldl (swapAtIdx g) (tokens, picked.2)
    let cand := swapped.1.flatten
    if cand ∈ lookup then swapLoop tokens eligible lookup g attempts swapped.2
    else (some cand, swapped.2)

/-- `swap_vowels_preserving_ends` of `logo_gene.py` with the default
vowel pool. -/
def swapVowelsPreservingEnds (w : Str) (lookup : List Str) (attempts : Nat)
    (g : RandFn) (i : Nat) : Option Str × Nat :=
  let tokens := tokenizePhonemes w
  if tokens.length ≤ 2 then (none, i)
  else
    let eligible :=
      (List.range tokens.length).filter
        (fun j => 0 < j ∧ j < tokens.length - 1 ∧ (tokens.get? j).getD [] ∈ logoVowelPool)
    if eligible.isEmpty then (none, i)
    else swapLoop tokens eligible lookup g attempts i

/-- `resolve_homonym` of `logo_gene.py` (default budgets 250/250):
edge-preserving scramble first, then vowel substitution; `none` when both
strategies fail.  There is no further fallback strategy in the source. -/
def resolveHomonym (w : Str) (lookup : List Str) (g : RandFn) (i : Nat)
    : Option Str × Nat :=
  match scramblePreservingEnds w lookup 250 g i with
  | (some c, i') => (some c, i')
  | (none, i') => swapVowelsPreservingEnds w lookup 250 g i'

-- ## Compound logic of `logo_gene.py` (section 3 of the file).

/-- Python's substring test `needle in hay`. -/
def strContains (needle : Str) : Str → Bool
  | [] => needle.isEmpty
  | c :: rest => needle.isPrefixOf (c :: rest) || strContains needle rest

/-- `get_best_match`: prefer a key containing `.n.`, then one containing
`.v.`, then the first option.  (`options.head?` models `options[0]`; the
builder of `stem_index` only ever stores non-empty lists.) -/
def getBestMatch (part : Str) (idx : List (Str × List Str)) : Option Str :=
  match List.lookup part idx with
  | none => none
  | some options =>
    match options.find? (fun o => strContains (str (".n.")) o) with
    | some o => some o
    | none =>
      match options.find? (fun o => strContains (str (".v.")) o) with
      | some o => some o
      | none => options.head?

/-- `find_constituents`: the first split point (scanning left to right,
both sides at least 3 characters) where both sides are known stems; the
returned pair is the first indexed key of each side. -/
def findConstituents (word : Str) (idx : List (Str × List Str)) : Option (Str × Str) :=
  if word.length < 6 then none
  else
    let points := (List.range (word.length - 5)).map (fun j => 3 + j)
    match points.find?
        (fun i => (List.lookup (word.take i) idx).isSome
          ∧ (List.lookup (word.drop i) idx).isSome) with
    | none => none
    | some i =>
      match (List.lookup (word.take i) idx).bind List.head?,
            (List.lookup (word.drop i) idx).bind List.head? with
      | some a, some b => some (a, b)
      | _, _ => none

/-- `assemble_compound` of `logo_gene.py`.  Note that in the explicit
branch a part with no match is silently skipped (`if match:` guards the
append), and the final `len(parts) >= 2` test decides success.  The
`elemental_dict` parameter of the source is unused there as well. -/
def assembleCompound (stem : Str) (idx : List (Str × List Str))
    (_d : δ) : Option (List Str) :=
  let parts :=
    if '_' ∈ stem then
      (splitOnChar '_' stem).filterMap (fun p => getBestMatch p idx)
    else
      match findConstituents stem idx with
      | some (a, b) => [a, b]
      | none => []
  if 2 ≤ parts.length then some parts else none

-- ## The `LexiconGenerator` of `logo_gene.py` (section "MAIN EXECUTION").

/-- An input vocabulary record: `composition` (the empty list models both a
missing and an empty mapping, exactly like `data.get('composition', {})`)
and `definition`. -/
structure InEntry where
  composition : CompVec
  definition : Str
deriving DecidableEq, Repr

/-- A generated lexicon record: the input fields with `word` attached. -/
structure LexEntry where
  composition : CompVec
  definition : Str
  word : Str
deriving DecidableEq, Repr

/-- `final_lexicon`, insertion-ordered. -/
abbrev Lexicon := List (Str × LexEntry)

/-- The mutable state of `LexiconGenerator`. -/
structure GenState where
  elementalDict : List (Str × InEntry)
  stemIndex : List (Str × List Str)
  finalLexicon : Lexicon
  reverseLookup : List Str
  wordCompositions : List (Str × List Sig)
  stemHistory : List (Str × List (CompVec × Str))
  compoundKeys : List Str
deriving Repr

/-- `LexiconGenerator.__init__`. -/
def initState (d : List (Str × InEntry)) : GenState :=
  { elementalDict := d
    stemIndex := d.foldl (fun idx p => assocUpdate idx (stemOf p.1) (fun l => l ++ [p.1]) []) []
    finalLexicon := []
    reverseLookup := []
    wordCompositions := []
    stemHistory := []
    compoundKeys := [] }

/-- `_register_word`: add to the allocated set, record the signature under
the word, append to the stem history. -/
def registerWord (st : GenState) (stem : Str) (comp : CompVec) (w : Str) : GenState :=
  { st with
    reverseLookup := setAdd st.reverseLookup w
    wordCompositions :=
      assocUpdate st.wordCompositions w
        (fun sigs => if compositionSignature comp ∈ sigs then sigs else sigs ++ [compositionSignature comp]) []
    stemHistory := assocUpdate st.stemHistory stem (fun h => h ++ [(comp, w)]) [] }

/-- The retry loop of `_generate_base_word` (`max_retries = 20`): construct
a candidate; accept it if unregistered, or if the exact signature is
already recorded for it; otherwise try the collision resolver, and retry
construction when that also fails. -/
def gbwLoop (st : GenState) (pos : Str) (comp : CompVec) (g : RandFn)
    : Nat → Nat → Option (Option Str × Nat)
  | 0, i => some (none, i)
  | fuel + 1, i =>
    match constructWord pos comp st.reverseLookup g i with
    | none => none
    | some (cand, i1) =>
      if cand ∉ st.reverseLookup then some (some cand, i1)
      else if compositionSignature comp ∈ (List.lookup cand st.wordCompositions).getD [] then
        some (some cand, i1)
      else
        match resolveHomonym cand st.reverseLookup g i1 with
        | (some r, i2) => some (some r, i2)
        | (none, i2) => gbwLoop st pos comp g fuel i2

/-- `_generate_base_word`: first scan the stem history for a fuzzy-equal
prior vector (reusing the word of the *first* match), then fall to the
construct/resolve retry loop. -/
def generateBaseWord (st : GenState) (stem pos : Str) (comp : CompVec)
    (g : RandFn) (i : Nat) : Option (Option Str × Nat) :=
  let prior :=
    match List.lookup stem st.stemHistory with
    | none => none
    | some hist => (hist.find? (fun p => vectorsMatch comp p.1)).map (fun p => p.2)
  match prior with
  | some w => some (some w, i)
  | none => gbwLoop st pos comp g 20 i

/-- The loop body of `generate_base_lexicon`. -/
def gblGo (g : RandFn) : List (Str × InEntry) → GenState → Nat → Option (GenState × Nat)
  | [], st, i => some (st, i)
  | (key, data) :: rest, st, i =>
    let stem := stemOf key
    if '_' ∈ stem then
      gblGo g rest { st with compoundKeys := st.compoundKeys ++ [key] } i
    else
      match (splitOnChar '.' key).get? 1 with
      | none => none
      | some pos =>
        let comp := data.composition
        match generateBaseWord st stem pos comp g i with
        | none => none
        | some (none, i') => gblGo g rest st i'
        | some (some w, i') =>
          let st1 := registerWord st stem comp w
          let st2 := { st1 with
            finalLexicon := assocSet st1.finalLexicon key ⟨comp, data.definition, w⟩ }
          gblGo g rest st2 i'

/-- `generate_base_lexicon`. -/
def generateBaseLexicon (st : GenState) (g : RandFn) (i : Nat) : Option (GenState × Nat) :=
  gblGo g st.elementalDict st i

/-- Compound connectors `["a'", "e'", "i'"]` (apostrophes written as
character escapes). -/
def compoundConnectors : List Str := [str ("a\x27"), str ("e\x27"), str ("i\x27")]

/-- Compound fallback suffixes `['os', 'ix', 'ul', 'ym']`. -/
def compoundSuffixes : List Str := [str ("os"), str ("ix"), str ("ul"), str ("ym")]

/-- The shared 20-attempt join/collide/resolve loop used both by
`generate_compounds` and by the multi-part branch of
`fill_missing_from_wordlist` (the source duplicates this code verbatim):
join the part words with a drawn connector, append a drawn suffix from the
second attempt on, accept if unregistered or exact-signature-registered,
otherwise resolve. -/
def compoundRetry (lookup : List Str) (wcomps : List (Str × List Sig))
    (partWords : List Str) (sig : Sig) (g : RandFn)
    : Nat → Nat → Nat → Option Str × Nat
  | _, 0, i => (none, i)
  | attempt, fuel + 1, i =>
    let conn := (pyChoice compoundConnectors (g i)).getD []
    let base := joinWith conn partWords
    let withSfx :=
      if 0 < attempt then
        (base ++ (pyChoice compoundSuffixes (g (i + 1))).getD [], i + 2)
      else (base, i + 1)
    let cand := withSfx.1
    if cand ∉ lookup then (some cand, withSfx.2)
    else if sig ∈ (List.lookup cand wcomps).getD [] then (some cand, withSfx.2)
    else
      match resolveHomonym cand lookup g withSfx.2 with
      | (some r, i2) => (some r, i2)
      | (none, i2) => compoundRetry lookup wcomps partWords sig g (attempt + 1) fuel i2

/-- Collect the constituents' already-assigned words
(`final_lexicon.get(p)` / `entry.get('word')`, failing on a falsy word). -/
def partWordsOf (lex : Lexicon) (parts : List Str) : Option (List Str) :=
  match parts with
  | [] => some []
  | p :: rest =>
    match List.lookup p lex with
    | none => none
    | some e =>
      if e.word = [] then none
      else (partWordsOf lex rest).map (fun ws => e.word :: ws)

/-- The loop body of `generate_compounds`. -/
def gcGo (g : RandFn) : List Str → GenState → Nat → GenState × Nat
  | [], st, i => (st, i)
  | key :: rest, st, i =>
    let stem := stemOf key
    let comp := ((List.lookup key st.elementalDict).map (fun e => e.composition)).getD []
    match assembleCompound stem st.stemIndex st.elementalDict with
    | none => gcGo g rest st i
    | some parts =>
      match partWordsOf st.finalLexicon parts with
      | none => gcGo g rest st i
      | some pws =>
        match compoundRetry st.reverseLookup st.wordCompositions pws
            (compositionSignature comp) g 0 20 i with
        | (none, i') => gcGo g rest st i'
        | (some w, i') =>
          let defn := ((List.lookup key st.elementalDict).map (fun e => e.definition)).getD []
          let st1 := registerWord st stem comp w
          let st2 := { st1 with
            finalLexicon := assocSet st1.finalLexicon key ⟨comp, defn, w⟩ }
          gcGo g rest st2 i'

/-- `generate_compounds`. -/
def generateCompounds (st : GenState) (g : RandFn) (i : Nat) : GenState × Nat :=
  gcGo g st.compoundKeys st i

-- ## Wordlist back-fill and short-word optimization of `logo_gene.py`.

/-- `_random_composition`: four draws in the dictionary-literal order
`air, water, earth, fire`; if all are zero, one more draw picks a category
to set to 1. -/
def randomComposition (g : RandFn) (i : Nat) : CompVec × Nat :=
  let a := pyRandint 0 64 g i
  let w := pyRandint 0 64 g a.2
  let e := pyRandint 0 64 g w.2
  let f := pyRandint 0 64 g e.2
  let comp : CompVec :=
    [(str ("air"), (a.1 : Int)), (str ("water"), (w.1 : Int)),
     (str ("earth"), (e.1 : Int)), (str ("fire"), (f.1 : Int))]
  if a.1 + w.1 + e.1 + f.1 = 0 then
    match pyChoice [str ("air"), str ("water"), str ("earth"), str ("fire")] (g f.2) with
    | some k => (assocSet comp k 1, f.2 + 1)
    | none => (comp, f.2 + 1)
  else (comp, f.2)

/-- Decimal digits with `%02d` padding. -/
def natTwoDigit (n : Nat) : Str :=
  if n < 10 then '0' :: Nat.toDigits 10 n else Nat.toDigits 10 n

/-- The key `f"{stem}.{pos}.{sense:02d}"`. -/
def senseKey (stem pos : Str) (sense : Nat) : Str :=
  stem ++ '.' :: pos ++ '.' :: natTwoDigit sense

/-- `_next_available_key`: the first unused sense number.  The `while True`
of the source terminates because the lexicon is finite; the fuel
`lex.length + 1` suffices for the same reason. -/
def nextAvailableKey (lex : Lexicon) (stem pos : Str) : Str :=
  go (lex.length + 1) 1
where
  go : Nat → Nat → Str
    | 0, sense => senseKey stem pos sense
    | fuel + 1, sense =>
      let k := senseKey stem pos sense
      if (List.lookup k lex).isSome then go fuel (sense + 1) else k

/-- `_get_stem_word`: the word of the first noun-role key with the given
stem prefix, else of the first key with that prefix. -/
def getStemWord (lex : Lexicon) (stem : Str) : Option Str :=
  let pfx := stem ++ [ '.' ]
  let keys := lex.map Prod.fst
  let nounKey := keys.find? (fun k => pfx.isPrefixOf k ∧ strContains (str (".n.")) k)
  let anyKey := keys.find? (fun k => pfx.isPrefixOf k)
  match nounKey.orElse (fun _ => anyKey) with
  | none => none
  | some k => (List.lookup k lex).map (fun e => e.word)

/-- `raw_line.strip()`: drop surrounding whitespace. -/
def pyStrip (s : Str) : Str :=
  ((s.dropWhile Char.isWhitespace).reverse.dropWhile Char.isWhitespace).reverse

/-- `.lower()`. -/
def toLowerStr (s : Str) : Str := s.map Char.toLower

/-- Keep only characters matching `[a-z\s_\-]` (the first `re.sub`). -/
def keepCleanChar (c : Char) : Bool :=
  ('a' ≤ c ∧ c ≤ 'z') ∨ c.isWhitespace ∨ c = '_' ∨ c = '-'

/-- Replace every maximal run of `[\s\-]` by a single `'_'` (the second
`re.sub`). -/
def collapseWsDash : Bool → Str → Str
  | _, [] => []
  | inRun, c :: rest =>
    if c.isWhitespace ∨ c = '-' then
      if inRun then collapseWsDash true rest else '_' :: collapseWsDash true rest
    else c :: collapseWsDash false rest

/-- `.strip('_')`. -/
def stripUnderscores (s : Str) : Str :=
  ((s.dropWhile (fun c => c = '_')).reverse.dropWhile (fun c => c = '_')).reverse

/-- The stem-cleaning pipeline of `fill_missing_from_wordlist` and
`optimize_short_word_translations` applied to an already
stripped-and-lowered line. -/
def cleanStem (raw : Str) : Str :=
  stripUnderscores (collapseWsDash false (raw.filter keepCleanChar))

/-- `_add_filler_base_entry`: returns the success flag with the updated
generator state and `existing_stems` set. -/
def addFillerBaseEntry (st : GenState) (existing : List Str) (stem : Str)
    (g : RandFn) (i : Nat) : Option (Bool × GenState × List Str × Nat) :=
  if stem ∈ existing then some (true, st, existing, i)
  else
    let rc := randomComposition g i
    match generateBaseWord st stem (str ("n")) rc.1 g rc.2 with
    | none => none
    | some (none, i') => some (false, st, existing, i')
    | some (some w, i') =>
      let st1 := registerWord st stem rc.1 w
      let key := nextAvailableKey st1.finalLexicon stem (str ("n"))
      let st2 := { st1 with
        finalLexicon := assocSet st1.finalLexicon key ⟨rc.1, [], w⟩
        stemIndex := assocUpdate st1.stemIndex stem (fun l => l ++ [key]) [] }
      some (true, st2, setAdd existing stem, i')

/-- The part-ensuring loop of `fill_missing_from_wordlist` (first inner
`for p in parts`), with its early break on a failed filler. -/
def ensureParts (g : RandFn) : List Str → GenState → List Str → Nat
    → Option (Bool × GenState × List Str × Nat)
  | [], st, existing, i => some (true, st, existing, i)
  | p :: rest, st, existing, i =>
    if p ∈ existing then ensureParts g rest st existing i
    else
      match addFillerBaseEntry st existing p g i with
      | none => none
      | some (true, st', ex', i') => ensureParts g rest st' ex' i'
      | some (false, st', ex', i') => some (false, st', ex', i')

/-- Look up the stem words of all parts (second inner `for p in parts`). -/
def stemWordsOf (lex : Lexicon) : List Str → Option (List Str)
  | [] => some []
  | p :: rest =>
    match getStemWord lex p with
    | none => none
    | some w =>
      if w = [] then none
      else (stemWordsOf lex rest).map (fun ws => w :: ws)

/-- The line-processing body of `fill_missing_from_wordlist`. -/
def fmGo (g : RandFn) : List Str → GenState → List Str → Nat → Option (GenState × Nat)
  | [], st, _, i => some (st, i)
  | line :: rest, st, existing, i =>
    let raw := toLowerStr (pyStrip line)
    if raw = [] then fmGo g rest st existing i
    else
      let stem := cleanStem raw
      if stem = [] ∨ stem ∈ existing then fmGo g rest st existing i
      else
        let parts := (splitOnChar '_' stem).filter (fun p => p ≠ [])
        if 2 ≤ parts.length then
          match ensureParts g parts st existing i with
          | none => none
          | some (false, st', ex', i') => fmGo g rest st' ex' i'
          | some (true, st', ex', i') =>
            match stemWordsOf st'.finalLexicon parts with
            | none => fmGo g rest st' ex' i'
            | some partWords =>
              let rc := randomComposition g i'
              match compoundRetry st'.reverseLookup st'.wordCompositions partWords
                  (compositionSignature rc.1) g 0 20 rc.2 with
              | (none, i2) => fmGo g rest st' ex' i2
              | (some w, i2) =>
                let st1 := registerWord st' stem rc.1 w
                let key := nextAvailableKey st1.finalLexicon stem (str ("n"))
                let st2 := { st1 with
                  finalLexicon := assocSet st1.finalLexicon key ⟨rc.1, [], w⟩
                  stemIndex := assocUpdate st1.stemIndex stem (fun l => l ++ [key]) [] }
                fmGo g rest st2 (setAdd ex' stem) i2
        else
          match addFillerBaseEntry st existing stem g i with
          | none => none
          | some (_, st', ex', i') => fmGo g rest st' ex' i'

/-- `fill_missing_from_wordlist`: `wordlist = none` models an absent
`words.txt` (the function returns immediately); `some lines` models the
file's lines. -/
def fillMissing (wordlist : Option (List Str)) (st : GenState) (g : RandFn)
    (i : Nat) : Option (GenState × Nat) :=
  match wordlist with
  | none => some (st, i)
  | some lines =>
    let existing := dedupFirst (st.finalLexicon.map (fun p => stemOf p.1))
    fmGo g lines st existing i

/-- The attempt loop of `_generate_word_with_length` (`attempts = 200`). -/
def gwlLoop (onsetOptions vowelOptions codaOptions glideOptions : List Str)
    (minLen maxLen : Nat) (lookup : List Str) (wcomps : List (Str × List Sig))
    (sig : Sig) (g : RandFn) : Nat → Nat → Option Str × Nat
  | 0, i => (none, i)
  | fuel + 1, i =>
    let onset := (pyChoice onsetOptions (g i)).getD []
    let vowel := (pyChoice vowelOptions (g (i + 1))).getD []
    let tail := (pyChoice [0, 1, 2] (g (i + 2))).getD 0
    let sfx :=
      if tail = 0 then ((pyChoice codaOptions (g (i + 3))).getD [], i + 4)
      else if tail = 1 then ((pyChoice glideOptions (g (i + 3))).getD [], i + 4)
      else
        let c1 := (pyChoice codaOptions (g (i + 3))).getD []
        let c2 := (pyChoice glideOptions (g (i + 4))).getD []
        ((pyChoice [c1, c2] (g (i + 5))).getD [], i + 6)
    let cand := onset ++ vowel ++ sfx.1
    if ¬(minLen ≤ cand.length ∧ cand.length ≤ maxLen) then
      gwlLoop onsetOptions vowelOptions codaOptions glideOptions minLen maxLen
        lookup wcomps sig g fuel sfx.2
    else if cand ∉ lookup then (some cand, sfx.2)
    else if sig ∈ (List.lookup cand wcomps).getD [] then (some cand, sfx.2)
    else
      gwlLoop onsetOptions vowelOptions codaOptions glideOptions minLen maxLen
        lookup wcomps sig g fuel sfx.2

/-- `_generate_word_with_length`: bounded-length variant generation used by
the short-word optimization (total: every lookup has a default). -/
def generateWordWithLength (pos : Str) (comp : CompVec) (minLen maxLen : Nat)
    (lookup : List Str) (wcomps : List (Str × List Sig)) (g : RandFn) (i : Nat)
    : Option Str × Nat :=
  let se := sortedElementsDesc comp
  let primary := (se.head?.map Prod.fst).getD (str ("air"))
  let secondary :=
    match se with
    | _ :: (s, v) :: _ => if 0 < v then s else primary
    | _ => primary
  let airVowels := (List.lookup (str ("air")) nucleusVowelsTable).getD []
  let airCodas := (List.lookup (str ("air")) codaTable).getD []
  let defOnsets := (List.lookup (str ("n")) onsetPhonesTable).getD []
  let defGlides := (List.lookup (str ("n")) nucleusModifiersTable).getD []
  let onsetOptions := [] :: (List.lookup pos onsetPhonesTable).getD defOnsets
  let vowelOptions := (List.lookup primary nucleusVowelsTable).getD airVowels
  let codaOptions := [] :: (List.lookup secondary codaTable).getD airCodas
  let glideOptions := [] :: (List.lookup pos nucleusModifiersTable).getD defGlides
  gwlLoop onsetOptions vowelOptions codaOptions glideOptions minLen maxLen
    lookup wcomps (compositionSignature comp) g 200 i

/-- `_rebuild_state_from_lexicon`: reset the registry, the signature map
and the stem history and rebuild all three from the current lexicon —
wordforms no longer attached to any sense are *not* carried over. -/
def rebuildState (st : GenState) : GenState :=
  let step := fun (acc : List Str × List (Str × List Sig) × List (Str × List (CompVec × Str)))
      (p : Str × LexEntry) =>
    if p.2.word = [] then acc
    else
      let sig := compositionSignature p.2.composition
      (setAdd acc.1 p.2.word,
       assocUpdate acc.2.1 p.2.word (fun sigs => if sig ∈ sigs then sigs else sigs ++ [sig]) [],
       assocUpdate acc.2.2 (stemOf p.1) (fun h => h ++ [(p.2.composition, p.2.word)]) [])
  let r := st.finalLexicon.foldl step ([], [], [])
  { st with reverseLookup := r.1, wordCompositions := r.2.1, stemHistory := r.2.2 }

/-- The entry-processing body of `optimize_short_word_translations`
(word replacements never touch `reverse_lookup` until the final rebuild,
so the lookup and signature tables stay those of the state `st`). -/
def osGo (st : GenState) (shortStems : List Str) (g : RandFn)
    : List (Str × LexEntry) → Lexicon → Nat → Lexicon × Nat
  | [], lex, i => (lex, i)
  | (k, e) :: rest, lex, i =>
    if stemOf k ∉ shortStems then osGo st shortStems g rest lex i
    else if e.word = [] then osGo st shortStems g rest lex i
    else
      let n := (stemOf k).length
      let minLen := max 1 (n - 1)
      let maxLen := n + 1
      if minLen ≤ e.word.length ∧ e.word.length ≤ maxLen then
        osGo st shortStems g rest lex i
      else
        let pos := ((splitOnChar '.' k).get? 1).getD (str ("n"))
        match generateWordWithLength pos e.composition minLen maxLen
            st.reverseLookup st.wordCompositions g i with
        | (none, i') => osGo st shortStems g rest lex i'
        | (some cand, i') =>
          osGo st shortStems g rest (assocSet lex k { e with word := cand }) i'

/-- `optimize_short_word_translations`: collect the short stems of the
wordlist, regenerate out-of-range words for their senses, then rebuild the
registry state from the lexicon. -/
def optimizeShort (wordlist : Option (List Str)) (st : GenState) (g : RandFn)
    (i : Nat) : GenState × Nat :=
  match wordlist with
  | none => (st, i)
  | some lines =>
    let shortStems := lines.foldl
      (fun acc line =>
        let raw := toLowerStr (pyStrip line)
        if raw = [] then acc
        else
          let stem := cleanStem raw
          if stem ≠ [] ∧ stem.length < 4 ∧ '_' ∉ stem then setAdd acc stem else acc)
      []
    let r := osGo st shortStems g st.finalLexicon st.finalLexicon i
    (rebuildState { st with finalLexicon := r.1 }, r.2)

-- ## Residual homonym sweep (`resolve_remaining_homonyms` of `logo_gene.py`).

/-- The keys holding wordform `w`, in lexicon order — the group lists of
`word_to_keys` (built in the source by ordered `setdefault`/`append`,
which collects, for each word, exactly the keys carrying it in insertion
order). -/
def keysWithWord (lex : Lexicon) (w : Str) : List Str :=
  lex.filterMap (fun p => if p.2.word = w then some p.1 else none)

/-- The non-empty wordforms of the lexicon in order of first appearance —
the key order of `word_to_keys`. -/
def wordsInOrder (lex : Lexicon) : List Str :=
  dedupFirst (lex.filterMap (fun p => if p.2.word = [] then none else some p.2.word))

/-- `word_to_keys` as an ordered list of groups. -/
def sweepGroups (lex : Lexicon) : List (Str × List Str) :=
  (wordsInOrder lex).map (fun w => (w, keysWithWord lex w))

/-- The per-group `stems` dictionary: group keys by their stem, in order of
first appearance. -/
def stemKeysGroups (keys : List Str) : List (Str × List Str) :=
  (dedupFirst (keys.map stemOf)).map (fun s => (s, keys.filter (fun k => stemOf k = s)))

/-- The signature a key currently carries
(`final_lexicon[k].get('composition', {})`; every processed key is in the
lexicon, so the default is never reached). -/
def sigOfKey (lex : Lexicon) (k : Str) : Sig :=
  compositionSignature (((List.lookup k lex).map (fun e => e.composition)).getD [])

/-- Overwrite the word attached to key `k`
(`final_lexicon[k]['word'] = new_word`). -/
def setWordAt (lex : Lexicon) (k : Str) (w : Str) : Lexicon :=
  lex.map (fun p => if p.1 = k then (p.1, { p.2 with word := w }) else p)

/-- The sweep state: lexicon, registry, stream position. -/
abbrev SweepState := Lexicon × List Str × Nat

/-- Process one colliding key of a non-first stem: skip it when its exact
signature is among the kept signatures, otherwise re-register the
resolver's result when the resolver succeeds. -/
def sweepKeyStep (g : RandFn) (w : Str) (kept : List Sig) (acc : SweepState)
    (k : Str) : SweepState :=
  let lex := acc.1
  let lkp := acc.2.1
  let i := acc.2.2
  if sigOfKey lex k ∈ kept then acc
  else
    match resolveHomonym w lkp g i with
    | (none, i') => (lex, lkp, i')
    | (some nw, i') => (setWordAt lex k nw, setAdd lkp nw, i')

/-- Process one wordform group: nothing to do unless the word is shared by
keys of at least two distinct stems; then the first stem keeps its claim
(its signatures become the kept set) and every other stem's keys go
through `sweepKeyStep`. -/
def sweepGroupStep (g : RandFn) (acc : SweepState) (grp : Str × List Str) : SweepState :=
  let w := grp.1
  let keys := grp.2
  if keys.length ≤ 1 then acc
  else
    let stems := stemKeysGroups keys
    if stems.length ≤ 1 then acc
    else
      match stems with
      | [] => acc
      | (_, keys0) :: rest =>
        let kept := keys0.map (fun k => sigOfKey acc.1 k)
        rest.foldl (fun a sg => sg.2.foldl (sweepKeyStep g w kept) a) acc

/-- `resolve_remaining_homonyms`: group the lexicon by wordform once, then
fold the group processing over all groups. -/
def resolveRemainingHomonyms (lex : Lexicon) (lkp : List Str) (g : RandFn)
    (i : Nat) : SweepState :=
  (sweepGroups lex).foldl (sweepGroupStep g) (lex, lkp, i)

/-- `LexiconGenerator.generate()`: base phase, compound phase, wordlist
back-fill, short-word optimization, residual homonym sweep.  The two
wordlist passes read the same file, modelled by the same optional line
list (`none` when `words.txt` is absent, in which case both return
immediately, leaving exactly the three-phase pipeline).  `print_stats` and
`save` do not alter the result. -/
def runGenerate (d : List (Str × InEntry)) (wordlist : Option (List Str))
    (g : RandFn) (i : Nat) : Option (GenState × Nat) :=
  match generateBaseLexicon (initState d) g i with
  | none => none
  | some (st1, i1) =>
    let r2 := generateCompounds st1 g i1
    match fillMissing wordlist r2.1 g r2.2 with
    | none => none
    | some (st3, i3) =>
      let r4 := optimizeShort wordlist st3 g i3
      let r5 := resolveRemainingHomonyms r4.1.finalLexicon r4.1.reverseLookup g r4.2
      some ({ r4.1 with finalLexicon := r5.1, reverseLookup := r5.2.1 }, r5.2.2)

-- ## The `PhoneticEngine` and generator of `omega_alpha.py`.

/-- The `morphology` section (inner keys are defaulted at use sites, as in
the source's `.get('connectors', ...)` calls). -/
structure OmegaMorph where
  connectors : Option (List Str)
  suffixes : Option (List Str)
  compoundStrategies : Option (List Str)
deriving Repr

/-- A parsed phonology configuration document: the top-level sections the
engine reads, each optional. -/
structure OmegaDoc where
  onsetPhones : Option (List (Str × List Str))
  nucleusVowels : Option (List (Str × List Str))
  nucleusModifiers : Option (List (Str × List Str))
  codaTbl : Option (List (Str × List Str))
  templates : Option (List (Str × List Str))
  morphology : Option OmegaMorph
  constraints : Option (List (Str × Str))
  orthography : Option (List (Str × Str))
deriving Repr

/-- `_get_default_config` of `omega_alpha.py`: the built-in fallback
configuration (no morphology, constraints or orthography sections). -/
def defaultDoc : OmegaDoc :=
  { onsetPhones := some
      [ (str ("n"), [str ("d"), str ("z"), str ("n"), str ("l"), str ("r")]),
        (str ("v"), [str ("t"), str ("p"), str ("k")]) ]
    nucleusVowels := some
      [ (str ("fire"), [str ("a"), str ("ay")]),
        (str ("air"), [str ("e"), str ("eo")]),
        (str ("earth"), [str ("i"), str ("ia")]),
        (str ("water"), [str ("u"), str ("ua")]) ]
    nucleusModifiers := some
      [ (str ("n"), [str ("w"), str ("r")]),
        (str ("v"), [str ("j"), str ("n")]) ]
    codaTbl := some
      [ (str ("fire"), [str ("z"), str ("st")]),
        (str ("air"), [str ("th"), str ("ft")]),
        (str ("earth"), [str ("rd"), str ("rn")]),
        (str ("water"), [str ("m"), str ("l")]) ]
    templates := some [ (str ("default"), [str ("ONK"), str ("ONM")]) ]
    morphology := none
    constraints := none
    orthography := none }

/-- The outcome of opening and parsing the configuration file. -/
inductive LoadOutcome where
  | success (doc : OmegaDoc)
  | fileNotFound
  | jsonDecodeError
  | otherFailure (msg : Str)

/-- `_load_config`: `FileNotFoundError` and `json.JSONDecodeError` are
caught and replaced by the built-in defaults; any other exception
propagates (modelled by `Except.error`). -/
def loadConfig : LoadOutcome → Except Str OmegaDoc
  | .success doc => .ok doc
  | .fileNotFound => .ok defaultDoc
  | .jsonDecodeError => .ok defaultDoc
  | .otherFailure m => .error m

/-- The engine state after `PhoneticEngine.__init__` on a parsed document:
every section defaulted as in the source (templates to
`{'default': ["ONK", "ONM", "ONK NM"]}`, morphology to the literal default
dictionary). -/
structure OmegaEngine where
  onsetPhones : List (Str × List Str)
  nucleusVowels : List (Str × List Str)
  nucleusModifiers : List (Str × List Str)
  codaTbl : List (Str × List Str)
  templates : List (Str × List Str)
  morphology : OmegaMorph
  constraints : List (Str × Str)
  orthography : List (Str × Str)
deriving Repr

/-- `PhoneticEngine.__init__` field initialisation from a document. -/
def engineInit (doc : OmegaDoc) : OmegaEngine :=
  { onsetPhones := doc.onsetPhones.getD []
    nucleusVowels := doc.nucleusVowels.getD []
    nucleusModifiers := doc.nucleusModifiers.getD []
    codaTbl := doc.codaTbl.getD []
    templates := doc.templates.getD
      [ (str ("default"), [str ("ONK"), str ("ONM"), str ("ONK NM")]) ]
    morphology := doc.morphology.getD
      ⟨some compoundConnectors, some compoundSuffixes,
       some [str ("connector"), str ("suffix"), str ("both")]⟩
    constraints := doc.constraints.getD []
    orthography := doc.orthography.getD [] }

/-- Literal-pattern model of `re.search(pattern, word)`: for the
metacharacter-free patterns considered here, a regex search succeeds
exactly when the pattern occurs as a substring.  (Note the source file
never imports `re`, so its only caller `_is_valid` — itself dead code, see
`omegaConstructWord` — would raise `NameError` if reached.) -/
def reSearchLit (pattern w : Str) : Bool := strContains pattern w

/-- `_is_valid`: no rejection-constraint pattern matches the word. -/
def omegaIsValid (eng : OmegaEngine) (w : Str) : Bool :=
  eng.constraints.all (fun rule => !(reSearchLit rule.1 w))

/-- Replace all occurrences of `src` (non-empty) by `dst`, left to right —
Python's `str.replace`. -/
def replaceAllAux (src dst : Str) : Nat → Str → Str
  | 0, s => s
  | _, [] => []
  | fuel + 1, c :: rest =>
    if src ≠ [] ∧ src.isPrefixOf (c :: rest) then
      dst ++ replaceAllAux src dst fuel ((c :: rest).drop src.length)
    else c :: replaceAllAux src dst fuel rest

/-- `_apply_orthography`: apply every rewrite rule, in declared order,
replacing all occurrences. -/
def omegaApplyOrthography (eng : OmegaEngine) (w : Str) : Str :=
  eng.orthography.foldl (fun s rule => replaceAllAux rule.1 rule.2 s.length s) w

/-- `_resolve_symbol`: map one template character to a drawn sound; the
four slot symbols draw from their inventories (falling back to the `n` or
`air` row, and to the empty string on an empty inventory — the latter
without consuming a draw), a space becomes the empty string, anything else
is a literal. -/
def resolveSymbol (eng : OmegaEngine) (pos primary secondary : Str) (sym : Char)
    (g : RandFn) (i : Nat) : Str × Nat :=
  let draw := fun (options : List Str) =>
    if options.isEmpty then (([] : Str), i)
    else ((pyChoice options (g i)).getD [], i + 1)
  if sym = 'O' then
    draw ((List.lookup pos eng.onsetPhones).getD
      ((List.lookup (str ("n")) eng.onsetPhones).getD []))
  else if sym = 'N' then
    draw ((List.lookup primary eng.nucleusVowels).getD
      ((List.lookup (str ("air")) eng.nucleusVowels).getD []))
  else if sym = 'K' then
    draw ((List.lookup secondary eng.codaTbl).getD
      ((List.lookup (str ("air")) eng.codaTbl).getD []))
  else if sym = 'M' then
    draw ((List.lookup pos eng.nucleusModifiers).getD
      ((List.lookup (str ("n")) eng.nucleusModifiers).getD []))
  else if sym = ' ' then ([], i)
  else ([sym], i)

/-- `_generate_from_template`: expand a template character by character. -/
def generateFromTemplate (eng : OmegaEngine) (pos primary secondary : Str)
    (template : Str) (g : RandFn) (i : Nat) : Str × Nat :=
  template.foldl
    (fun acc sym =>
      let r := resolveSymbol eng pos primary secondary sym g acc.2
      (acc.1 ++ r.1, r.2))
    ([], i)

/-- The 20-attempt loop of the *effective* `construct_word`. -/
def ocwLoop (eng : OmegaEngine) (pos primary secondary : Str) (tlist : List Str)
    (lookup : List Str) (g : RandFn) : Nat → Nat → Option Str × Nat
  | 0, i => (none, i)
  | fuel + 1, i =>
    let template := (pyChoice tlist (g i)).getD []
    let r := generateFromTemplate eng pos primary secondary template g (i + 1)
    if 1 < r.1.length ∧ r.1 ∉ lookup then (some r.1, r.2)
    else ocwLoop eng pos primary secondary tlist lookup g fuel r.2

/-- The `construct_word` that is actually in effect on `PhoneticEngine`.
The class body defines `construct_word` twice; this second definition
overrides the first, so the constraint check (`_is_valid`) and the
orthography pass of the shadowed first definition are never executed: a
candidate is accepted as soon as it is longer than one character and
unregistered, and after 20 failed attempts the fixed maximal template
`"ONKNM"` is expanded and returned unconditionally. -/
def omegaConstructWord (eng : OmegaEngine) (pos : Str) (vector : CompVec)
    (lookup : List Str) (g : RandFn) (i : Nat) : Str × Nat :=
  let se := sortedElementsDesc vector
  let primary := (se.head?.map Prod.fst).getD (str ("air"))
  let secondary :=
    match se with
    | _ :: (s, v) :: _ => if 0 < v then s else primary
    | _ => primary
  let tlist0 := ((List.lookup pos eng.templates).orElse
    (fun _ => List.lookup (str ("default")) eng.templates)).getD []
  let tlist := if tlist0.isEmpty then [str ("ONK")] else tlist0
  match ocwLoop eng pos primary secondary tlist lookup g 20 i with
  | (some w, i') => (w, i')
  | (none, i') => generateFromTemplate eng pos primary secondary (str ("ONKNM")) g i'

/-- `assemble_compound` of the engine: draw a strategy unless one is
pinned, then join with a drawn connector and/or append a drawn suffix.
`none` models the exception `random.choice` raises on an empty strategy or
connector list (and the `if not parts` early return). -/
def omegaAssembleCompound (eng : OmegaEngine) (parts : List Str)
    (strategy : Option Str) (g : RandFn) (i : Nat) : Option (Str × Nat) :=
  if parts.isEmpty then none
  else
    let connectors := eng.morphology.connectors.getD [str ("\x27")]
    let suffixes := eng.morphology.suffixes.getD []
    let strategies := eng.morphology.compoundStrategies.getD [str ("connector")]
    let strat :=
      match strategy with
      | some s => some (s, i)
      | none => (pyChoice strategies (g i)).map (fun s => (s, i + 1))
    match strat with
    | none => none
    | some (s, i1) =>
      if s = str ("connector") then
        (pyChoice connectors (g i1)).map (fun glue => (joinWith glue parts, i1 + 1))
      else if s = str ("suffix") then
        let base := parts.flatten
        if suffixes.isEmpty then some (base, i1)
        else (pyChoice suffixes (g i1)).map (fun tl => (base ++ tl, i1 + 1))
      else if s = str ("both") then
        match pyChoice connectors (g i1) with
        | none => none
        | some glue =>
          let base := joinWith glue parts
          if suffixes.isEmpty then some (base, i1 + 1)
          else (pyChoice suffixes (g (i1 + 1))).map (fun tl => (base ++ tl, i1 + 2))
      else some (parts.flatten, i1)

/-- `_scramble_internal`: shuffle the interior characters; `none` for
words shorter than 4 characters. -/
def omegaScrambleInternal (w : Str) (g : RandFn) (i : Nat) : Option Str × Nat :=
  if w.length < 4 then (none, i)
  else
    match w with
    | [] => (none, i)
    | c0 :: rest =>
      let last := (rest.getLast?).getD ' '
      let mid := rest.dropLast
      let r := pyShuffle mid g i
      (some (c0 :: r.1 ++ [last]), r.2)

/-- The five plain vowels of `_swap_vowel`. -/
def plainVowels : List Char := ['a', 'e', 'i', 'o', 'u']

/-- `_swap_vowel`: scan left to right; at each vowel flip a coin
(`random.random() > 0.5`, modelled as an odd draw); on heads replace that
vowel by a drawn different one and stop, on tails keep scanning. -/
def omegaSwapVowelGo (g : RandFn) : Str → Str → Nat → Option Str × Nat
  | _, [], i => (none, i)
  | done, c :: rest, i =>
    if c ∈ plainVowels then
      if g i % 2 = 1 then
        match pyChoice (plainVowels.filter (fun v => v ≠ c)) (g (i + 1)) with
        | some v => (some (done.reverse ++ v :: rest), i + 2)
        | none => (none, i + 2)
      else omegaSwapVowelGo g (c :: done) rest (i + 1)
    else omegaSwapVowelGo g (c :: done) rest i

/-- `_swap_vowel` on a whole word. -/
def omegaSwapVowel (w : Str) (g : RandFn) (i : Nat) : Option Str × Nat :=
  omegaSwapVowelGo g [] w i

/-- `resolve_homonym` of the engine: scramble, then vowel swap, each
accepted only when unregistered; `none` when both fail.  As in
`logo_gene.py`, there is no suffixation fallback. -/
def omegaResolveHomonym (w : Str) (lookup : List Str) (g : RandFn) (i : Nat)
    : Option Str × Nat :=
  let afterSwap := fun (j : Nat) =>
    match omegaSwapVowel w g j with
    | (some c, j') => if c ∉ lookup then (some c, j') else (none, j')
    | (none, j') => ((none : Option Str), j')
  match omegaScrambleInternal w g i with
  | (some c, i') => if c ∉ lookup then (some c, i') else afterSwap i'
  | (none, i') => afterSwap i'

/-- The generator state of `omega_alpha.py` (`final_lexicon`,
`reverse_lookup`, stream position). -/
abbrev OmegaState := Lexicon × List Str × Nat

/-- The loop body of `_generate_base` of `omega_alpha.py` (safe
part-of-speech parsing, falsy words skipped). -/
def ogbGo (eng : OmegaEngine) (g : RandFn) : List (Str × InEntry) → OmegaState → OmegaState
  | [], st => st
  | (key, data) :: rest, st =>
    if '_' ∈ key then ogbGo eng g rest st
    else
      let pos := ((splitOnChar '.' key).get? 1).getD (str ("n"))
      let r := omegaConstructWord eng pos data.composition st.2.1 g st.2.2
      if r.1 = [] then ogbGo eng g rest (st.1, st.2.1, r.2)
      else
        ogbGo eng g rest
          (assocSet st.1 key ⟨data.composition, data.definition, r.1⟩,
           setAdd st.2.1 r.1, r.2)

/-- `_find_compound_parts`: the first indexed key of every delimited part;
`none` unless every part resolves. -/
def omegaFindCompoundParts (stem : Str) (idx : List (Str × List Str)) : Option (List Str) :=
  let rawParts := splitOnChar '_' stem
  let resolved := rawParts.filterMap (fun p => (List.lookup p idx).bind List.head?)
  if resolved.length = rawParts.length then some resolved else none

/-- The constituents' words, `final_lexicon[pk]['word']` for every part
key, `none` when any part key is missing from the lexicon. -/
def omegaPartWords (lex : Lexicon) (parts : List Str) : Option (List Str) :=
  parts.mapM (fun pk => (List.lookup pk lex).map (fun e => e.word))

/-- The loop body of `_generate_compounds` of `omega_alpha.py`: assemble
the constituents' words, resolve a collision or skip the sense when
resolution fails, then register `{**elemental_dict[key], 'word': w}`. -/
def ogcGo (eng : OmegaEngine) (d : List (Str × InEntry)) (idx : List (Str × List Str))
    (g : RandFn) : List Str → OmegaState → Option OmegaState
  | [], st => some st
  | key :: rest, st =>
    let stem := stemOf key
    match omegaFindCompoundParts stem idx with
    | none => ogcGo eng d idx g rest st
    | some partsKeys =>
      if partsKeys.isEmpty then ogcGo eng d idx g rest st
      else
        match omegaPartWords st.1 partsKeys with
        | none => ogcGo eng d idx g rest st
        | some partWords =>
          match omegaAssembleCompound eng partWords none g st.2.2 with
          | none => none
          | some (w0, i1) =>
            let data := (List.lookup key d).getD ⟨[], []⟩
            let keep := fun (w : Str) (i2 : Nat) =>
              ogcGo eng d idx g rest
                (assocSet st.1 key ⟨data.composition, data.definition, w⟩,
                 setAdd st.2.1 w, i2)
            if w0 ∈ st.2.1 then
              match omegaResolveHomonym w0 st.2.1 g i1 with
              | (none, i2) => ogcGo eng d idx g rest (st.1, st.2.1, i2)
              | (some w1, i2) => keep w1 i2
            else keep w0 i1

/-- The `stem_index` of `omega_alpha.LexiconGenerator.__init__`. -/
def omegaStemIndex (d : List (Str × InEntry)) : List (Str × List Str) :=
  d.foldl (fun idx p => assocUpdate idx (stemOf p.1) (fun l => l ++ [p.1]) []) []

/-- `omega_alpha.LexiconGenerator.generate()`: base words, then compounds
(`save` does not alter the result).  The compound keys are those whose
full key contains the delimiter, as in `__init__`. -/
def omegaGenerate (doc : OmegaDoc) (d : List (Str × InEntry)) (g : RandFn)
    (i : Nat) : Option OmegaState :=
  let eng := engineInit doc
  let compoundKeys := (d.map Prod.fst).filter (fun k => '_' ∈ k)
  let st1 := ogbGo eng g d ([], [], i)
  ogcGo eng d (omegaStemIndex d) g compoundKeys st1

-- ## Spec-side definition for the compound-resolution refinement claim.

/-- Modelled from the spec (§4.4, explicit split): resolve every delimited
part to its best match, failing as soon as one part has no match. -/
def resolveAllParts (idx : List (Str × List Str)) : List Str → Option (List Str)
  | [] => some []
  | p :: rest =>
    match getBestMatch p idx with
    | none => none
    | some m => (resolveAllParts idx rest).map (fun ms => m :: ms)

/-- Modelled from the spec (§4.4, explicit split), for comparison with
`assembleCompound`: split the stem on its delimiter; resolve every part
through the same best-match preference; *if any part has no match, fail*;
require at least two resolved constituents. -/
def specAssembleExplicit (stem : Str) (idx : List (Str × List Str)) : Option (List Str) :=
  match resolveAllParts idx (splitOnChar '_' stem) with
  | none => none
  | some parts => if 2 ≤ parts.length then some parts else none

-- ## Concrete scenario inputs.

/-- The all-zero stream: a concrete pseudo-random state. -/
def gz : RandFn := fun _ => 0

/-- A fire-heavy vector, water 1 (so the secondary category is water). -/
def vecA : CompVec := [(str ("fire"), 64), (str ("water"), 1)]

/-- Fire 64, water 14: distance 13 from `vecA` (fuzzy-equal to it). -/
def vecB : CompVec := [(str ("fire"), 64), (str ("water"), 14)]

/-- Fire 64, water 28: distance 27 from `vecA` (not fuzzy-equal to it) but
distance 14 from `vecB` (fuzzy-equal to it). -/
def vecC : CompVec := [(str ("fire"), 64), (str ("water"), 28)]

/-- Fire 36, water 1. -/
def vecA2 : CompVec := [(str ("fire"), 36), (str ("water"), 1)]

/-- Fire 64, water 1: distance 28 from `vecA2` (not fuzzy-equal). -/
def vecB2 : CompVec := [(str ("fire"), 64), (str ("water"), 1)]

/-- Fire 50, water 1: distance 14 from both `vecA2` and `vecB2`
(fuzzy-equal to both). -/
def vecC2 : CompVec := [(str ("fire"), 50), (str ("water"), 1)]

/-- Input vocabulary for the C1 counterexample: a synonym chain
`vecA → vecB → vecC` under stem `aa` plus a second stem `bb` whose
signature equals the chain's last link. -/
def dictC1 : List (Str × InEntry) :=
  [ (str ("cc.n.01"), ⟨vecA, []⟩),
    (str ("dd.n.01"), ⟨vecA, []⟩),
    (str ("aa.n.01"), ⟨vecA, []⟩),
    (str ("aa.n.02"), ⟨vecB, []⟩),
    (str ("aa.n.03"), ⟨vecC, []⟩),
    (str ("bb.n.01"), ⟨vecC, []⟩) ]

/-- Input vocabulary for the C10 exact-signature share. -/
def dictC10 : List (Str × InEntry) :=
  [ (str ("cc.n.01"), ⟨vecA, []⟩),
    (str ("dd.n.01"), ⟨vecA, []⟩),
    (str ("aa.n.01"), ⟨vecA, []⟩),
    (str ("bb.n.01"), ⟨vecA, []⟩) ]

/-- Input vocabulary for the C2 counterexample (fuzzy-equality is not
transitive: `vecC2` matches `vecA2` first). -/
def dictC2 : List (Str × InEntry) :=
  [ (str ("aa.n.01"), ⟨vecA2, []⟩),
    (str ("aa.n.02"), ⟨vecB2, []⟩),
    (str ("aa.n.03"), ⟨vecC2, []⟩) ]

/-- Input vocabulary for the C6 counterexample. -/
def dictC6 : List (Str × InEntry) := [ (str ("ab.n.01"), ⟨vecA, []⟩) ]

/-- Wordlist for the C6 counterexample (`words.txt` containing `ab`). -/
def wordlistC6 : List Str := [str ("ab")]

/-- Stream for the C6 counterexample: first draw picks the onset `dr`,
later draws are zero. -/
def gSix : RandFn := fun i => if i = 0 then 5 else 0

/-- The word attached to key `k` in the lexicon of a finished run. -/
def wordOfKeyRun (r : Option (GenState × Nat)) (k : Str) : Option Str :=
  r.bind (fun p => (List.lookup k p.1.finalLexicon).map (fun e => e.word))


/-- The composition echoed for key `k` in the lexicon of a finished run. -/
def compOfKeyRun (r : Option (GenState × Nat)) (k : Str) : Option CompVec :=
  r.bind (fun p => (List.lookup k p.1.finalLexicon).map (fun e => e.composition))

/-- A configuration whose only rejection constraint bans the letter `a`,
with inventories forcing the candidate `dak`. -/
def docC3 : OmegaDoc :=
  { onsetPhones := some [ (str ("n"), [str ("d")]) ]
    nucleusVowels := some [ (str ("fire"), [str ("a")]) ]
    nucleusModifiers := none
    codaTbl := some [ (str ("fire"), [str ("k")]) ]
    templates := some [ (str ("default"), [str ("ONK")]) ]
    morphology := none
    constraints := some [ (str ("a"), str ("contains the banned letter a")) ]
    orthography := none }

/-- A stem index knowing the stems `aa` and `bb` but not `cc`. -/
def idxC8 : List (Str × List Str) :=
  [ (str ("aa"), [str ("aa.n.01")]), (str ("bb"), [str ("bb.n.01")]) ]

/-- A vocabulary whose only sense has no composition mapping. -/
def dictC7 : List (Str × InEntry) := [ (str ("ab.n.01"), ⟨[], []⟩) ]

/-- A generator state owning the single registered wordform `dam`
(witness input for registry monotonicity). -/
def stRegW : GenState := { initState [] with reverseLookup := [str ("dam")] }

/-- A generator state whose stem history for `aa` holds two prior entries
(witness input for first-match reuse). -/
def stHistW : GenState :=
  { initState [] with
    stemHistory := [ (str ("aa"), [(vecA, str ("dam")), (vecB, str ("daw"))]) ] }

/-- The composition currently attached to a key (a projection used to
state that the sweep never alters compositions). -/
def lexCompAt (lex : Lexicon) (k : Str) : Option CompVec :=
  (List.lookup k lex).map (fun e => e.composition)

/-- The kept signatures of a collision group computed from a lexicon: the
signatures of the first stem's keys. -/
def keptSigsOf (lex : Lexicon) (keys : List Str) : List Sig :=
  match stemKeysGroups keys with
  | [] => []
  | (_, ks0) :: _ => ks0.map (fun k => sigOfKey lex k)

/-- Invariant carried through the sweep, relative to the initial lexicon
`lex0` and a distinguished key `k0`: all compositions unchanged, and the
entry of `k0` untouched. -/
def SweepInv (lex0 : Lexicon) (k0 : Str) (S : SweepState) : Prop :=
  (∀ k', lexCompAt S.1 k' = lexCompAt lex0 k') ∧ List.lookup k0 S.1 = List.lookup k0 lex0

/-- A two-entry lexicon in which two stems share the wordform `dam` under
the same signature (witness input for the sweep-skip theorem). -/
def lexSweepW : Lexicon :=
  [ (str ("aa.n.01"), ⟨vecA, [], str ("dam")⟩),
    (str ("bb.n.01"), ⟨vecA, [], str ("dam")⟩) ]

-- ## Theorems.

/-- C2 — counterexample.  The claim "two senses sharing a stem whose
vectors are fuzzy-equal receive the identical wordform" fails on a
complete run: under stem `aa`, the senses `aa.n.02` (`vecB2`) and
`aa.n.03` (`vecC2`) are fuzzy-equal (distance 14 < 15), yet the output
attaches `daw` to the former and `dam` to the latter, because reuse binds
`aa.n.03` to the *first* fuzzy match in the stem history (`vecA2`, word
`dam`), and fuzzy-equality is not transitive. -/
theorem c2_counterexample :
    vectorsMatch vecB2 vecC2 = true
    ∧ stemOf (str ("aa.n.02")) = stemOf (str ("aa.n.03"))
    ∧ wordOfKeyRun (runGenerate dictC2 none gz 0) (str ("aa.n.02")) = some (str ("daw"))
    ∧ wordOfKeyRun (runGenerate dictC2 none gz 0) (str ("aa.n.03")) = some (str ("dam"))
    ∧ compOfKeyRun (runGenerate dictC2 none gz 0) (str ("aa.n.02")) = some vecB2
    ∧ compOfKeyRun (runGenerate dictC2 none gz 0) (str ("aa.n.03")) = some vecC2
    ∧ str ("daw") ≠ str ("dam") := by
  refine ⟨by decide, by decide, by decide, by decide, by decide, by decide, by decide⟩

/-- C2 — amended claim, proved: when a sense's stem already has a history
and its vector fuzzy-matches some prior entry, `_generate_base_word`
returns the wordform of the *first* fuzzy-matching prior entry (so the
sense and that earliest matching sense get the identical wordform); a
later fuzzy-equal pair as such carries no guarantee. -/
theorem c2_first_fuzzy_match_reuse (st : GenState) (stem pos : Str)
    (comp : CompVec) (g : RandFn) (i : Nat) (hist : List (CompVec × Str))
    (v : CompVec) (w : Str)
    (h1 : List.lookup stem st.stemHistory = some hist)
    (h2 : hist.find? (fun p => vectorsMatch comp p.1) = some (v, w)) :
    generateBaseWord st stem pos comp g i = some (some w, i) := by
  simp [generateBaseWord, h1, h2]

/-- Witness for `c2_first_fuzzy_match_reuse` at a concrete state:
`vecC` fuzzy-matches `vecB` (the second history entry) but not `vecA`
(the first), so the second entry's word `daw` is reused. -/
theorem c2_first_fuzzy_match_reuse_witness :
    generateBaseWord stHistW (str ("aa")) (str ("n")) vecC gz 0
      = some (some (str ("daw")), 0) :=
  c2_first_fuzzy_match_reuse stHistW (str ("aa")) (str ("n")) vecC gz 0
    [(vecA, str ("dam")), (vecB, str ("daw"))] vecB (str ("daw"))
    (by decide) (by decide)

/-- C10 — confirmed.  On a complete run over `dictC10`, the stem `bb`
(whose sense has exactly the signature `vecA` already recorded for the
wordform `damaw` held by the unrelated stem `aa`) is handed the identical
wordform `damaw` by `_generate_base_word`'s exact-signature acceptance,
and the residual sweep leaves this cross-stem share in place (the sense's
signature is among the kept signatures), so both stems share one wordform
in the final lexicon. -/
theorem c10_exact_signature_share :
    wordOfKeyRun (some ((generateBaseLexicon (initState dictC10) gz 0).getD (initState dictC10, 0)))
        (str ("aa.n.01")) = some (str ("damaw"))
    ∧ wordOfKeyRun (some ((generateBaseLexicon (initState dictC10) gz 0).getD (initState dictC10, 0)))
        (str ("bb.n.01")) = some (str ("damaw"))
    ∧ wordOfKeyRun (runGenerate dictC10 none gz 0) (str ("aa.n.01")) = some (str ("damaw"))
    ∧ wordOfKeyRun (runGenerate dictC10 none gz 0) (str ("bb.n.01")) = some (str ("damaw"))
    ∧ compOfKeyRun (runGenerate dictC10 none gz 0) (str ("aa.n.01")) = some vecA
    ∧ compOfKeyRun (runGenerate dictC10 none gz 0) (str ("bb.n.01")) = some vecA
    ∧ stemOf (str ("aa.n.01")) ≠ stemOf (str ("bb.n.01")) := by
  refine ⟨by decide, by decide, by decide, by decide, by decide, by decide, by decide⟩

/-- C1 — counterexample.  After a complete run over `dictC1` (base phase,
compound phase, residual sweep — `words.txt` absent), the senses
`aa.n.01` (vector `vecA`) and `bb.n.01` (vector `vecC`) have different
stems and vectors that are *not* fuzzy-equal (distance 27 ≥ 15), yet both
carry the wordform `damaw`: the synonym chain `vecA → vecB → vecC` under
`aa` put all three signatures on `damaw`, `bb` acquired it by
exact-signature acceptance, and the sweep skipped `bb`'s sense because its
signature is among the kept ones. -/
theorem c1_counterexample :
    wordOfKeyRun (runGenerate dictC1 none gz 0) (str ("aa.n.01")) = some (str ("damaw"))
    ∧ wordOfKeyRun (runGenerate dictC1 none gz 0) (str ("bb.n.01")) = some (str ("damaw"))
    ∧ compOfKeyRun (runGenerate dictC1 none gz 0) (str ("aa.n.01")) = some vecA
    ∧ compOfKeyRun (runGenerate dictC1 none gz 0) (str ("bb.n.01")) = some vecC
    ∧ vectorsMatch vecA vecC = false
    ∧ stemOf (str ("aa.n.01")) ≠ stemOf (str ("bb.n.01")) := by
  refine ⟨by decide, by decide, by decide, by decide, by decide, by decide⟩

/-- C6 — counterexample.  Within a single run of `generate()` over
`dictC6` with `words.txt` containing the short stem `ab`, the wordform
`dram` is registered during the base phase, but the short-word
optimization replaces `ab.n.01`'s word and then rebuilds the registry
from the lexicon, so `dram` is absent from the registry at the end of the
same run. -/
theorem c6_counterexample :
    ((generateBaseLexicon (initState dictC6) gSix 0).map
        (fun p => p.1.reverseLookup.contains (str ("dram")))) = some true
    ∧ ((runGenerate dictC6 (some wordlistC6) gSix 0).map
        (fun p => p.1.reverseLookup.contains (str ("dram")))) = some false := by
  exact ⟨by decide, by decide⟩

/-- C6 — amended claim, proved: registration itself never removes a
wordform — every wordform in the registry is still there after any
further `_register_word` (the removals of the counterexample come solely
from `_rebuild_state_from_lexicon`, which resets the registry to the
wordforms currently attached in the lexicon). -/
theorem c6_register_monotone (st : GenState) (stem : Str) (comp : CompVec)
    (w w0 : Str) (h : w0 ∈ st.reverseLookup) :
    w0 ∈ (registerWord st stem comp w).reverseLookup := by
  simp only [registerWord, setAdd]
  split
  · exact h
  · exact List.mem_append_left _ h

/-- Witness for `c6_register_monotone`: the registered `dam` survives a
registration of `daw`. -/
theorem c6_register_monotone_witness :
    str ("dam") ∈ (registerWord stRegW (str ("aa")) vecA (str ("daw"))).reverseLookup :=
  c6_register_monotone stRegW (str ("aa")) vecA (str ("daw")) (str ("dam")) (by decide)

/-- C7 — the code at the failing input.  `logo_gene.construct_word`
raises an uncaught IndexError (`sorted_elements[0]`) on a sense whose
record lacks a composition mapping, crashing the whole run — there is no
all-zero/default-category fallback on that path; the engine of
`omega_alpha.py` does fall back to the default primary category `air` and
returns the wordform `deth` on the same empty composition. -/
theorem c7_construct_word_empty_composition :
    constructWord (str ("n")) [] [] gz 0 = none
    ∧ (runGenerate dictC7 none gz 0).isSome = false
    ∧ (omegaConstructWord (engineInit defaultDoc) (str ("n")) [] [] gz 0).1 = str ("deth") := by
  refine ⟨by decide, by decide, by decide⟩

/-- C3 — the code at the failing input.  The effective
`PhoneticEngine.construct_word` (the second definition in the class body,
which shadows the constraint-checking first one) returns the candidate
`dak` under a configuration whose only rejection constraint is the
pattern `a`: the returned wordform matches a configured rejection pattern
and `_is_valid` would have rejected it. -/
theorem c3_constraint_bypassed :
    (omegaConstructWord (engineInit docC3) (str ("n")) [(str ("fire"), 64)] [] gz 0).1
        = str ("dak")
    ∧ reSearchLit (str ("a")) (str ("dak")) = true
    ∧ omegaIsValid (engineInit docC3) (str ("dak")) = false := by
  refine ⟨by decide, by decide, by decide⟩

/-- C4 — counterexample.  For the colliding wordform `de` (present in the
registry), `logo_gene.resolve_homonym` returns `none`: the scramble and
vowel-substitution strategies both fail (two phoneme tokens only) and no
suffixation fallback exists; `omega_alpha`'s resolver likewise returns
`none` on the same input with the all-zero stream. -/
theorem c4_counterexample :
    str ("de") ∈ [str ("de")]
    ∧ resolveHomonym (str ("de")) [str ("de")] gz 0 = (none, 0)
    ∧ omegaResolveHomonym (str ("de")) [str ("de")] gz 0 = (none, 1) := by
  refine ⟨by decide, by decide, by decide⟩

/-- C9 — confirmed.  When the configuration file is absent
(`FileNotFoundError`) or unparsable (`json.JSONDecodeError`), the loader
returns the built-in default configuration instead of surfacing an
error. -/
theorem c9_load_failure_defaults (o : LoadOutcome)
    (h : o = LoadOutcome.fileNotFound ∨ o = LoadOutcome.jsonDecodeError) :
    loadConfig o = Except.ok defaultDoc := by
  rcases h with rfl | rfl <;> rfl

/-- Witness for `c9_load_failure_defaults` at the absent-file outcome. -/
theorem c9_load_failure_defaults_witness :
    loadConfig LoadOutcome.fileNotFound = Except.ok defaultDoc :=
  c9_load_failure_defaults LoadOutcome.fileNotFound (Or.inl rfl)

/-- C5 — confirmed.  All randomness is drawn from the explicit stream
abstracting the seeded pseudo-random source, and both generators are
functions of the vocabulary, the configuration/wordlist and that stream,
so two runs from the same seeded state on the same inputs produce
identical output mappings (same keys, wordforms, echoed compositions and
definitions), for `logo_gene.generate()` and `omega_alpha.generate()`
alike. -/
theorem c5_determinism (d d' : List (Str × InEntry)) (wl wl' : Option (List Str))
    (g g' : RandFn) (i i' : Nat) (doc doc' : OmegaDoc)
    (hd : d = d') (hwl : wl = wl') (hg : g = g') (hi : i = i') (hdoc : doc = doc') :
    runGenerate d wl g i = runGenerate d' wl' g' i'
    ∧ omegaGenerate doc d g i = omegaGenerate doc' d' g' i' := by
  subst hd; subst hwl; subst hg; subst hi; subst hdoc
  exact ⟨rfl, rfl⟩

/-- Witness for `c5_determinism` at a concrete vocabulary and stream. -/
theorem c5_determinism_witness :
    runGenerate dictC10 none gz 0 = runGenerate dictC10 none gz 0
    ∧ omegaGenerate defaultDoc dictC10 gz 0 = omegaGenerate defaultDoc dictC10 gz 0 :=
  c5_determinism dictC10 dictC10 none none gz gz 0 0 defaultDoc defaultDoc
    rfl rfl rfl rfl rfl

/-- C8 — counterexample.  For the three-part compound stem `aa_bb_cc`
with `cc` absent from the stem index, the part `cc` has no match, yet
`assemble_compound` still returns a constituent list (the unmatched part
is silently dropped and two matched parts remain) — the claim says the
whole resolution must fail; the spec-faithful resolution indeed fails. -/
theorem c8_counterexample :
    getBestMatch (str ("cc")) idxC8 = none
    ∧ assembleCompound (str ("aa_bb_cc")) idxC8 ()
        = some [str ("aa.n.01"), str ("bb.n.01")]
    ∧ specAssembleExplicit (str ("aa_bb_cc")) idxC8 = none := by
  refine ⟨by decide, by decide, by decide⟩

/-- When every part resolves, the part-by-part resolution equals the
filtered collection that `assemble_compound` builds. -/
theorem resolveAllParts_eq_filterMap (idx : List (Str × List Str)) :
    ∀ (ps : List Str), (∀ p ∈ ps, (getBestMatch p idx).isSome) →
      resolveAllParts idx ps = some (ps.filterMap (fun p => getBestMatch p idx)) := by
  intro ps
  induction ps with
  | nil => intro _; rfl
  | cons p rest ih =>
    intro h
    have hp : (getBestMatch p idx).isSome := h p (List.mem_cons_self p rest)
    obtain ⟨m, hm⟩ := Option.isSome_iff_exists.mp hp
    have hrest := ih (fun q hq => h q (List.mem_cons_of_mem p hq))
    simp [resolveAllParts, hm, hrest, List.filterMap_cons]

/-- C8 — amended claim, proved: on an explicitly delimited stem, whenever
*every* part has a match in the stem index, `assemble_compound` agrees
with the spec's explicit-split resolution (same constituents, same
`≥ 2` success criterion); they part ways only when some part is
unmatched, which the code drops and the spec treats as failure. -/
theorem c8_all_parts_match_agrees_with_spec (stem : Str)
    (idx : List (Str × List Str)) (d : δ)
    (hdelim : '_' ∈ stem)
    (hall : ∀ p ∈ splitOnChar '_' stem, (getBestMatch p idx).isSome) :
    assembleCompound stem idx d = specAssembleExplicit stem idx := by
  simp [assembleCompound, specAssembleExplicit, hdelim,
    resolveAllParts_eq_filterMap idx (splitOnChar '_' stem) hall]

/-- Witness for `c8_all_parts_match_agrees_with_spec` at the fully
matched compound `aa_bb`. -/
theorem c8_all_parts_match_agrees_with_spec_witness :
    assembleCompound (str ("aa_bb")) idxC8 () = specAssembleExplicit (str ("aa_bb")) idxC8 :=
  c8_all_parts_match_agrees_with_spec (str ("aa_bb")) idxC8 ()
    (by decide) (by decide)

/-- The scramble retry loop only returns wordforms absent from the
registry. -/
theorem scrambleLoop_sound (f l : Str) (m : List Str) (lkp : List Str) (g : RandFn) :
    ∀ (a : Nat) (seen : List (List Str)) (i : Nat) (c : Str) (i2 : Nat),
      scrambleLoop f l m lkp g seen a i = (some c, i2) → c ∉ lkp := by
  intro a
  induction a with
  | zero => intro seen i c i2 h; simp [scrambleLoop] at h
  | succ n ih =>
    intro seen i c i2 h
    simp only [scrambleLoop] at h
    split at h
    · exact ih _ _ _ _ h
    · split at h
      · exact ih _ _ _ _ h
      · next hnot =>
        simp only [Prod.mk.injEq, Option.some.injEq] at h
        obtain ⟨rfl, -⟩ := h
        exact hnot

/-- `scramble_preserving_ends` only returns wordforms absent from the
registry. -/
theorem scramblePreservingEnds_sound (w : Str) (lkp : List Str) (a : Nat)
    (g : RandFn) (i : Nat) (c : Str) (i2 : Nat)
    (h : scramblePreservingEnds w lkp a g i = (some c, i2)) : c ∉ lkp := by
  simp only [scramblePreservingEnds] at h
  split at h
  · simp at h
  · split at h
    · split at h
      · simp at h
      · next hnot =>
        simp only [Prod.mk.injEq, Option.some.injEq] at h
        obtain ⟨rfl, -⟩ := h
        exact hnot
    · split at h
      · simp at h
      · split at h
        · simp at h
        · exact scrambleLoop_sound _ _ _ _ _ _ _ _ _ _ h

/-- The vowel-substitution retry loop only returns wordforms absent from
the registry. -/
theorem swapLoop_sound (tokens : List Str) (eligible : List Nat) (lkp : List Str)
    (g : RandFn) :
    ∀ (a : Nat) (i : Nat) (c : Str) (i2 : Nat),
      swapLoop tokens eligible lkp g a i = (some c, i2) → c ∉ lkp := by
  intro a
  induction a with
  | zero => intro i c i2 h; simp [swapLoop] at h
  | succ n ih =>
    intro i c i2 h
    simp only [swapLoop] at h
    split at h <;> split at h
    · exact ih _ _ _ h
    · next hnot =>
      simp only [Prod.mk.injEq, Option.some.injEq] at h
      obtain ⟨rfl, -⟩ := h
      exact hnot
    · exact ih _ _ _ h
    · next hnot =>
      simp only [Prod.mk.injEq, Option.some.injEq] at h
      obtain ⟨rfl, -⟩ := h
      exact hnot

/-- `swap_vowels_preserving_ends` only returns wordforms absent from the
registry. -/
theorem swapVowelsPreservingEnds_sound (w : Str) (lkp : List Str) (a : Nat)
    (g : RandFn) (i : Nat) (c : Str) (i2 : Nat)
    (h : swapVowelsPreservingEnds w lkp a g i = (some c, i2)) : c ∉ lkp := by
  simp only [swapVowelsPreservingEnds] at h
  split at h
  · simp at h
  · split at h
    · simp at h
    · exact swapLoop_sound _ _ _ _ _ _ _ _ h

/-- C4 — amended claim, proved: the collision resolver tries the
edge-preserving scramble first (a scramble success is returned as is,
before vowel substitution is considered), and any wordform it returns is
absent from the registry; there is no suffixation fallback, so both
strategies failing yields `none` (see the counterexample), which the
callers handle by keeping or skipping the sense. -/
theorem c4_resolver_order_and_soundness (w : Str) (lkp : List Str) (g : RandFn) (i : Nat) :
    (∀ (c : Str) (i2 : Nat), resolveHomonym w lkp g i = (some c, i2) → c ∉ lkp)
    ∧ (∀ (c : Str) (i2 : Nat), scramblePreservingEnds w lkp 250 g i = (some c, i2) →
        resolveHomonym w lkp g i = (some c, i2)) := by
  constructor
  · intro c i2 h
    simp only [resolveHomonym] at h
    split at h
    · next heq =>
      simp only [Prod.mk.injEq, Option.some.injEq] at h
      obtain ⟨rfl, rfl⟩ := h
      exact scramblePreservingEnds_sound _ _ _ _ _ _ _ heq
    · exact swapVowelsPreservingEnds_sound _ _ _ _ _ _ _ h
  · intro c i2 h
    simp only [resolveHomonym, h]

/-- Witness for `c4_resolver_order_and_soundness`: on the collision
`dak`, the resolver succeeds with `dayk`, which is indeed not in the
registry. -/
theorem c4_resolver_order_and_soundness_witness :
    str ("dayk") ∉ [str ("dak")] :=
  (c4_resolver_order_and_soundness (str ("dak")) [str ("dak")] gz 0).1
    (str ("dayk")) 2 (by decide)

/-- `List.lookup` through a cons cell, with propositional equality on the
key. -/
theorem lookup_cons (k a : Str) (b : β) (l : List (Str × β)) :
    List.lookup k ((a, b) :: l) = if k = a then some b else List.lookup k l := by
  by_cases h : k = a
  · subst h; simp [List.lookup]
  · simp [List.lookup, h, beq_false_of_ne h]

/-- Under duplicate-free keys, a key determines its entry. -/
theorem nodup_keys_entry_eq :
    ∀ (lex : Lexicon), (lex.map Prod.fst).Nodup →
      ∀ (k : Str) (e e' : LexEntry), (k, e) ∈ lex → (k, e') ∈ lex → e = e' := by
  intro lex
  induction lex with
  | nil => intro _ k e e' h; simp at h
  | cons p rest ih =>
    intro hnd k e e' h1 h2
    simp only [List.map_cons, List.nodup_cons] at hnd
    rcases List.mem_cons.mp h1 with h1 | h1 <;> rcases List.mem_cons.mp h2 with h2 | h2
    · exact congrArg Prod.snd (h1.trans h2.symm)
    · exfalso
      apply hnd.1
      rw [← congrArg Prod.fst h1]
      exact List.mem_map.mpr ⟨(k, e'), h2, rfl⟩
    · exfalso
      apply hnd.1
      rw [← congrArg Prod.fst h2]
      exact List.mem_map.mpr ⟨(k, e), h1, rfl⟩
    · exact ih hnd.2 k e e' h1 h2

/-- Membership in a word group of the sweep. -/
theorem mem_keysWithWord (lex : Lexicon) (w k : Str) :
    k ∈ keysWithWord lex w ↔ ∃ e, (k, e) ∈ lex ∧ e.word = w := by
  unfold keysWithWord
  rw [List.mem_filterMap]
  constructor
  · rintro ⟨⟨k', e⟩, hmem, hf⟩
    by_cases hw : e.word = w
    · simp only [hw, if_pos rfl] at hf
      cases hf
      exact ⟨e, hmem, hw⟩
    · simp [hw] at hf
  · rintro ⟨e, hmem, hw⟩
    exact ⟨(k, e), hmem, by simp [hw]⟩

/-- A group of the sweep is exactly the key list of its wordform. -/
theorem mem_sweepGroups (lex : Lexicon) (w : Str) (keys : List Str)
    (h : (w, keys) ∈ sweepGroups lex) : keys = keysWithWord lex w := by
  unfold sweepGroups at h
  obtain ⟨w', _, heq⟩ := List.mem_map.mp h
  obtain ⟨h1, h2⟩ := Prod.mk.injEq _ _ _ _ ▸ heq
  rw [← h2, h1]

/-- Under duplicate-free keys, a key belongs to at most one word group. -/
theorem keysWithWord_unique (lex : Lexicon) (hnd : (lex.map Prod.fst).Nodup)
    (k w w' : Str) (h1 : k ∈ keysWithWord lex w) (h2 : k ∈ keysWithWord lex w') :
    w = w' := by
  obtain ⟨e, he, hw⟩ := (mem_keysWithWord lex w k).mp h1
  obtain ⟨e', he', hw'⟩ := (mem_keysWithWord lex w' k).mp h2
  rw [← hw, ← hw', nodup_keys_entry_eq lex hnd k e e' he he']

/-- Keys of a stem sub-group come from the group's key list. -/
theorem mem_of_mem_stemKeysGroups (keys : List Str) (sg : Str × List Str)
    (h : sg ∈ stemKeysGroups keys) (k : Str) (hk : k ∈ sg.2) : k ∈ keys := by
  unfold stemKeysGroups at h
  obtain ⟨s, _, heq⟩ := List.mem_map.mp h
  rw [← heq] at hk
  exact (List.mem_filter.mp hk).1

/-- `setWordAt` through `List.lookup`: the looked-up entry is the old one,
with the word overwritten exactly at the modified key. -/
theorem lookup_setWordAt (k w : Str) :
    ∀ (lex : Lexicon) (k' : Str),
      List.lookup k' (setWordAt lex k w)
        = (List.lookup k' lex).map
            (fun e => if k' = k then { e with word := w } else e) := by
  intro lex
  induction lex with
  | nil => intro k'; rfl
  | cons p rest ih =>
    intro k'
    obtain ⟨a, e0⟩ := p
    show List.lookup k' ((if a = k then (a, { e0 with word := w }) else (a, e0)) :: setWordAt rest k w) = _
    by_cases hak : a = k
    · rw [if_pos hak, lookup_cons, lookup_cons]
      by_cases hk : k' = a
      · rw [if_pos hk, if_pos hk, hk, hak]; simp
      · rw [if_neg hk, if_neg hk, ih]
    · rw [if_neg hak, lookup_cons, lookup_cons]
      by_cases hk : k' = a
      · rw [if_pos hk, if_pos hk]
        have : ¬ k' = k := fun hkk => hak (hk ▸ hkk ▸ rfl)
        simp [this]
      · rw [if_neg hk, if_neg hk, ih]

/-- `setWordAt` never changes a composition. -/
theorem lexCompAt_setWordAt (lex : Lexicon) (k w k' : Str) :
    lexCompAt (setWordAt lex k w) k' = lexCompAt lex k' := by
  unfold lexCompAt
  rw [lookup_setWordAt]
  cases List.lookup k' lex with
  | none => rfl
  | some e => by_cases hk : k' = k <;> simp [hk]

/-- `setWordAt` leaves other keys' entries untouched. -/
theorem lookup_setWordAt_ne (lex : Lexicon) (k w k' : Str) (h : k' ≠ k) :
    List.lookup k' (setWordAt lex k w) = List.lookup k' lex := by
  rw [lookup_setWordAt]
  cases List.lookup k' lex with
  | none => rfl
  | some e => simp [h]

/-- Equal compositions give equal signatures. -/
theorem sigOfKey_congr (lex1 lex2 : Lexicon) (k : Str)
    (h : lexCompAt lex1 k = lexCompAt lex2 k) : sigOfKey lex1 k = sigOfKey lex2 k := by
  unfold lexCompAt at h
  unfold sigOfKey
  rw [h]

/-- A key whose signature is among the kept set is skipped unchanged. -/
theorem sweepKeyStep_skip (g : RandFn) (w : Str) (kept : List Sig)
    (S : SweepState) (k : Str) (h : sigOfKey S.1 k ∈ kept) :
    sweepKeyStep g w kept S k = S := by
  simp [sweepKeyStep, h]

/-- One key step preserves the sweep invariant when the key is either not
the distinguished one, or has its (initial) signature among the kept
set. -/
theorem sweepKeyStep_inv (lex0 : Lexicon) (k0 : Str) (g : RandFn) (w : Str)
    (kept : List Sig) (S : SweepState) (k : Str)
    (hinv : SweepInv lex0 k0 S) (hk : k = k0 → sigOfKey lex0 k0 ∈ kept) :
    SweepInv lex0 k0 (sweepKeyStep g w kept S k) := by
  by_cases hkk : k = k0
  · subst hkk
    have hsig : sigOfKey S.1 k = sigOfKey lex0 k :=
      sigOfKey_congr S.1 lex0 k (hinv.1 k)
    rw [sweepKeyStep_skip g w kept S k (hsig ▸ hk rfl)]
    exact hinv
  · simp only [sweepKeyStep]
    split
    · exact hinv
    · split
      · exact hinv
      · constructor
        · intro k'
          rw [lexCompAt_setWordAt]
          exact hinv.1 k'
        · rw [lookup_setWordAt_ne _ _ _ _ (fun h => hkk h.symm)]
          exact hinv.2

/-- Folding the key step over a key list preserves the sweep invariant
when every processed key is either not the distinguished key or is
kept-signature-skipped. -/
theorem foldKeys_inv (lex0 : Lexicon) (k0 : Str) (g : RandFn) (w : Str)
    (kept : List Sig) :
    ∀ (ks : List Str) (S : SweepState),
      SweepInv lex0 k0 S → (∀ k ∈ ks, k = k0 → sigOfKey lex0 k0 ∈ kept) →
      SweepInv lex0 k0 (ks.foldl (sweepKeyStep g w kept) S) := by
  intro ks
  induction ks with
  | nil => intro S h _; exact h
  | cons k rest ih =>
    intro S hinv hall
    simp only [List.foldl_cons]
    exact ih _
      (sweepKeyStep_inv lex0 k0 g w kept S k hinv (hall k (List.mem_cons_self k rest)))
      (fun k' hk' => hall k' (List.mem_cons_of_mem k hk'))

/-- Folding the key step over all remaining stem groups preserves the
sweep invariant under the same condition. -/
theorem foldStems_inv (lex0 : Lexicon) (k0 : Str) (g : RandFn) (w : Str)
    (kept : List Sig) :
    ∀ (sgs : List (Str × List Str)) (S : SweepState),
      SweepInv lex0 k0 S →
      (∀ sg ∈ sgs, ∀ k ∈ sg.2, k = k0 → sigOfKey lex0 k0 ∈ kept) →
      SweepInv lex0 k0
        (sgs.foldl (fun a sg => sg.2.foldl (sweepKeyStep g w kept) a) S) := by
  intro sgs
  induction sgs with
  | nil => intro S h _; exact h
  | cons sg rest ih =>
    intro S hinv hall
    simp only [List.foldl_cons]
    exact ih _
      (foldKeys_inv lex0 k0 g w kept sg.2 S hinv (hall sg (List.mem_cons_self sg rest)))
      (fun sg' hsg' => hall sg' (List.mem_cons_of_mem sg hsg'))

/-- Every group of the sweep pairs a wordform with exactly its key
list. -/
theorem sweepGroups_keys (lex : Lexicon) :
    ∀ grp ∈ sweepGroups lex, grp.2 = keysWithWord lex grp.1 := by
  intro grp hg
  unfold sweepGroups at hg
  obtain ⟨w', _, heq⟩ := List.mem_map.mp hg
  rw [← heq]

/-- One whole group step preserves the sweep invariant, for a
distinguished key that lies in the group of wordform `w0` with its
signature among that group's kept signatures. -/
theorem sweepGroupStep_inv (lex0 : Lexicon) (k0 w0 : Str) (g : RandFn)
    (hnd : (lex0.map Prod.fst).Nodup)
    (hk0 : k0 ∈ keysWithWord lex0 w0)
    (hsig0 : sigOfKey lex0 k0 ∈ keptSigsOf lex0 (keysWithWord lex0 w0))
    (grp : Str × List Str) (hgrp : grp.2 = keysWithWord lex0 grp.1)
    (S : SweepState) (hinv : SweepInv lex0 k0 S) :
    SweepInv lex0 k0 (sweepGroupStep g S grp) := by
  simp only [sweepGroupStep]
  split
  · exact hinv
  · split
    · exact hinv
    · cases hst : stemKeysGroups grp.2 with
      | nil => exact hinv
      | cons hd rest =>
        obtain ⟨s0, ks0⟩ := hd
        apply foldStems_inv lex0 k0 g grp.1 (ks0.map (fun k => sigOfKey S.1 k)) rest S hinv
        intro sg hsg k hk hkeq
        subst hkeq
        have hmem2 : k ∈ grp.2 :=
          mem_of_mem_stemKeysGroups grp.2 sg
            (by rw [hst]; exact List.mem_cons_of_mem _ hsg) k hk
        have hmemw : k ∈ keysWithWord lex0 grp.1 := hgrp ▸ hmem2
        have hw : grp.1 = w0 := keysWithWord_unique lex0 hnd k grp.1 w0 hmemw hk0
        have hkept : keptSigsOf lex0 (keysWithWord lex0 w0)
            = ks0.map (fun k => sigOfKey lex0 k) := by
          rw [← hw, ← hgrp]
          unfold keptSigsOf
          rw [hst]
        have hmaps : ks0.map (fun k => sigOfKey S.1 k) = ks0.map (fun k => sigOfKey lex0 k) :=
          List.map_congr_left (fun x _ => sigOfKey_congr S.1 lex0 x (hinv.1 x))
        rw [hmaps, ← hkept]
        exact hsig0

/-- Folding the group step over all groups preserves the sweep
invariant. -/
theorem foldGroups_inv (lex0 : Lexicon) (k0 w0 : Str) (g : RandFn)
    (hnd : (lex0.map Prod.fst).Nodup)
    (hk0 : k0 ∈ keysWithWord lex0 w0)
    (hsig0 : sigOfKey lex0 k0 ∈ keptSigsOf lex0 (keysWithWord lex0 w0)) :
    ∀ (gs : List (Str × List Str)) (S : SweepState),
      SweepInv lex0 k0 S → (∀ grp ∈ gs, grp.2 = keysWithWord lex0 grp.1) →
      SweepInv lex0 k0 (gs.foldl (sweepGroupStep g) S) := by
  intro gs
  induction gs with
  | nil => intro S h _; exact h
  | cons grp rest ih =>
    intro S hinv hall
    simp only [List.foldl_cons]
    exact ih _
      (sweepGroupStep_inv lex0 k0 w0 g hnd hk0 hsig0 grp
        (hall grp (List.mem_cons_self grp rest)) S hinv)
      (fun grp' hg' => hall grp' (List.mem_cons_of_mem grp hg'))

/-- C1 — amended claim, proved: the residual sweep leaves a sense
completely untouched — entry, wordform and all — whenever its exact
composition signature is among the signatures the first (kept) stem of
its wordform group holds; in particular two senses from different stems
whose vectors are not fuzzy-equal can still share one wordform after a
full run when the shared wordform carries the later sense's exact
signature through the kept stem (the counterexample instantiates this),
so global uniqueness only covers senses the sweep actually reassigns. -/
theorem c1_sweep_keeps_exact_signature_shares (lex : Lexicon) (lkp : List Str)
    (g : RandFn) (i : Nat) (w : Str) (keys : List Str) (k : Str)
    (hnd : (lex.map Prod.fst).Nodup)
    (hgrp : (w, keys) ∈ sweepGroups lex)
    (hk : k ∈ keys)
    (hsig : sigOfKey lex k ∈ keptSigsOf lex keys) :
    List.lookup k (resolveRemainingHomonyms lex lkp g i).1 = List.lookup k lex := by
  have hkeys := mem_sweepGroups lex w keys hgrp
  subst hkeys
  exact (foldGroups_inv lex k w g hnd hk hsig (sweepGroups lex) (lex, lkp, i)
    ⟨fun _ => rfl, rfl⟩ (sweepGroups_keys lex)).2

/-- Witness for `c1_sweep_keeps_exact_signature_shares`: in `lexSweepW`
the stems `aa` and `bb` share `dam` under the same signature, and the
sweep leaves `bb.n.01` unchanged. -/
theorem c1_sweep_keeps_exact_signature_shares_witness :
    List.lookup (str ("bb.n.01"))
        (resolveRemainingHomonyms lexSweepW [str ("dam")] gz 0).1
      = List.lookup (str ("bb.n.01")) lexSweepW :=
  c1_sweep_keeps_exact_signature_shares lexSweepW [str ("dam")] gz 0
    (str ("dam")) [str ("aa.n.01"), str ("bb.n.01")] (str ("bb.n.01"))
    (by decide) (by decide) (by decide) (by decide)
